import Mathlib

/-!
Verification development for the chain-crawler (`src/chainCrawler.py`).

The Python source is shallowly embedded below.  Each definition carries the
name of the Python function or attribute it translates.  The collaborators
`crawlerCache.py`, `leakyLIFO.py` and `timeDecaySet.py` are imported by the
source but are not part of the source tree; they are modelled from the
specification (sections 3 and 4.1-4.3), as marked on their definitions.

Conventions of the embedding:
* Python dictionaries holding the `_links` section are association lists
  (`List (String × LinkVal)`) with unique keys; dictionary mutation during
  iteration (in `apply_hal_curies`) is modelled by iterating over the list of
  keys present when the loop starts.
* The HTTP fetch is an oracle `fetch : String → Option Resource`; `none`
  models `requests.exceptions.ConnectionError`.
* `random.randrange(0, n)` is an injected function `rand : Nat → Nat`; theorems
  that depend on it assume `rand n < n`, which `randrange` guarantees.
* The 64-bit URI fingerprint (cityHash64) is an injected `fp : String → Nat`.
* Wall-clock time is an injected `Nat`.
* A Python run that raises an uncaught exception is modelled by `Option`:
  `none` means the step crashed.
-/

namespace ChainCrawler

/-- Python's substring test `needle in hay` on strings. -/
def pyIn (needle hay : String) : Bool := decide (needle.data <:+: hay.data)

/-- Python's `s.lower()`: lowercase each character. -/
def pyLower (s : String) : String := String.mk (s.data.map Char.toLower)

/-- Python's `s.startswith(pre)`. -/
def pyStartsWith (s pre : String) : Bool := decide (pre.data <+: s.data)

/-- Python's `s[n:]`: drop the first `n` characters. -/
def pyDrop (s : String) (n : Nat) : String := String.mk (s.data.drop n)

/-- Python's `len(s)`: the number of characters. -/
def pyLen (s : String) : Nat := s.data.length

/-- One entry of the `curies` list of a HAL document: `{name, href}` where
`href` is a URI template containing a placeholder in braces. -/
structure Curie where
  name : String
  href : String
deriving DecidableEq

/-- A single HAL link object `{href, title}` as used by the crawler. -/
structure LinkObj where
  href : String
  title : String
deriving DecidableEq

/-- The value stored under one relation name of a `_links` section: a single
link object, a list of link objects (the `items` collection), the `curies`
list, or JSON `null`. -/
inductive LinkVal where
  | single (o : LinkObj)
  | items (objs : List LinkObj)
  | curies (cs : List Curie)
  | null
deriving DecidableEq

/-- The `_links` section of a decoded resource: a Python dict modelled as an
association list with unique keys. -/
abbrev Links := List (String × LinkVal)

/-- A decoded HAL+JSON resource: its `_links` section and its remaining
top-level scalar attributes (used by the `resource_extra` query). -/
structure Resource where
  links : Links
  attrs : List (String × String)
deriving DecidableEq

/-- Dictionary lookup `d[k]` on a `_links` section. -/
def lookupKey (ls : Links) (k : String) : Option LinkVal :=
  (ls.find? (fun p => p.1 == k)).map (·.2)

/-- Dictionary deletion `del d[k]`. -/
def delKey (ls : Links) (k : String) : Links :=
  ls.filter (fun p => p.1 != k)

/-- Dictionary assignment `d[k] = v`: replaces the value in place when the key
is present, otherwise appends the new binding. -/
def setKey (ls : Links) (k : String) (v : LinkVal) : Links :=
  if ls.any (fun p => p.1 == k) then
    ls.map (fun p => if p.1 == k then (k, v) else p)
  else ls ++ [(k, v)]

/-- Python's `re.sub(r"\x7b.*\x7d", repl, tmpl)`: the greedy pattern matches
from the first opening brace to the last closing brace of the template (when
the closing brace comes later), so at most one substitution ever happens. -/
def substTemplate (tmpl repl : String) : String :=
  let cs := tmpl.data
  match cs.findIdx? (· == '\x7b') with
  | none => tmpl
  | some i =>
    match cs.reverse.findIdx? (· == '\x7d') with
    | none => tmpl
    | some jr =>
      let j := cs.length - 1 - jr
      if i < j then String.mk (cs.take i ++ repl.data ++ cs.drop (j + 1)) else tmpl

/-- The shorthand payload: `key.split(name + ':', 1)[1]` for a key that starts
with `name + ':'`. -/
def curieRest (c : Curie) (key : String) : String :=
  pyDrop key (pyLen (c.name ++ ":"))

/-- The fully-qualified relation name a shorthand key is moved to. -/
def curieExp (c : Curie) (key : String) : String :=
  substTemplate c.href (curieRest c key)

/-- Body of the inner loop of `apply_hal_curies` for one relation name `key`:
when the key uses the curie shorthand, the link value is assigned to the
expanded name and the shorthand key deleted (in that order, as in the
source). -/
def applyCurieStep (c : Curie) (acc : Links) (key : String) : Links :=
  if pyStartsWith key (c.name ++ ":") then
    match lookupKey acc key with
    | some v => delKey (setKey acc (curieExp c key) v) key
    | none => acc
  else acc

/-- The inner loop `for key in json['_links']` of `apply_hal_curies` for one
curie, iterating over the relation names present when the loop starts. -/
def applyOneCurie (c : Curie) (ls : Links) : Links :=
  (ls.map (·.1)).foldl (applyCurieStep c) ls

/-- `ChainCrawler.apply_hal_curies` (src/chainCrawler.py lines 102-140): apply
each declared curie to the `_links` section, then (when `del_curies`) remove
the `curies` entry.  Any structural failure -- no `_links['curies']`, or a
`curies` value that is not a list of `{name, href}` objects (iterating it
raises before anything is modified) -- is caught by the bare `except` and the
resource is returned unchanged. -/
def apply_hal_curies (del_curies : Bool) (r : Resource) : Resource :=
  match lookupKey r.links "curies" with
  | some (LinkVal.curies cs) =>
    let ls := cs.foldl (fun acc c => applyOneCurie c acc) r.links
    { r with links := if del_curies then delKey ls "curies" else ls }
  | _ => r

/-- `ChainCrawler.pluralize_resource_name` (lines 143-145). -/
def pluralize_resource_name (resource_name : String) (ns : String) : List String :=
  [ns ++ resource_name ++ "s", ns ++ resource_name ++ "es"]

/-- A flattened link record as produced by `flatten_filter_link_array`:
the Python dict grows the fields `type` and `from_item_list`. -/
structure FlatLink where
  href : String
  type : String
  title : String
  from_item_list : Bool
deriving DecidableEq

/-- A link record after `get_external_links` added the `in_cache` field. -/
structure CrawlLink where
  href : String
  type : String
  title : String
  from_item_list : Bool
  in_cache : Bool
deriving DecidableEq

/-- The per-relation body of the loop of `flatten_filter_link_array` (lines
166-189).  `none` models an uncaught Python exception: a non-list under the
`items` key, or a list under a relation name that survives the keyword filter
(assigning `item['type']` to a list raises `TypeError`). -/
def flattenRel (filter_keywords : List String) (current_uri_type : String) :
    String × LinkVal → Option (List FlatLink)
  | (key, v) =>
    if key == "items" then
      match v with
      | LinkVal.items objs =>
        some (objs.map (fun o => ⟨o.href, current_uri_type, o.title, true⟩))
      | _ => none
    else if filter_keywords.any (fun kw => pyIn kw (pyLower key)) then
      some []
    else
      match v with
      | LinkVal.single o => some [⟨o.href, key, o.title, false⟩]
      | LinkVal.null => some []
      | _ => none

/-- `ChainCrawler.flatten_filter_link_array` (lines 148-191): records are
accumulated in iteration order of the `_links` section. -/
def flatten_filter_link_array (filter_keywords : List String)
    (current_uri_type : String) : Links → Option (List FlatLink)
  | [] => some []
  | kv :: rest => do
    let here ← flattenRel filter_keywords current_uri_type kv
    let more ← flatten_filter_link_array filter_keywords current_uri_type rest
    pure (here ++ more)

/-- A crawl position `{href, type, title}`; also the element type of the
backtracking history. -/
structure Position where
  href : String
  type : String
  title : String
deriving DecidableEq

/-- Modelled from the spec: `crawlerCache.py` is not under src/.  Fingerprint
cache (spec sections 3 and 4.1): a table of `2 ^ mask_bits` slots, indexed by
the low `mask_bits` bits of the URI's 64-bit fingerprint; each slot holds the
last full fingerprint written to it. -/
structure CrawlerCacheWithCollisionHistory where
  mask_bits : Nat
  table : List (Option Nat)
deriving DecidableEq

/-- Modelled from the spec: cache `check(uri)` -- true iff the slot addressed
by the masked fingerprint holds the URI's own full fingerprint. -/
def cacheCheck (fp : String → Nat) (c : CrawlerCacheWithCollisionHistory)
    (uri : String) : Bool :=
  c.table.getD (fp uri % 2 ^ c.mask_bits) none == some (fp uri)

/-- Modelled from the spec: cache `put_and_collision(uri)` writes the
fingerprint unconditionally; the collision flag it returns is only logged by
the crawler, so only the updated table is modelled. -/
def cachePut (fp : String → Nat) (c : CrawlerCacheWithCollisionHistory)
    (uri : String) : CrawlerCacheWithCollisionHistory :=
  { c with table := c.table.set (fp uri % 2 ^ c.mask_bits) (some (fp uri)) }

/-- Modelled from the spec: cache `clear()` resets every slot to the empty
sentinel. -/
def cacheClear (c : CrawlerCacheWithCollisionHistory) :
    CrawlerCacheWithCollisionHistory :=
  { c with table := c.table.map (fun _ => none) }

/-- Modelled from the spec: `leakyLIFO.py` is not under src/.  The bounded
history is a list with the most recent position first; `push` beyond the
capacity discards the oldest (last) entry. -/
def lifoPush (depth : Nat) (l : List Position) (p : Position) : List Position :=
  (p :: l).take depth

/-- Modelled from the spec: `pop` removes and returns the most recently pushed
position; popping an empty stack raises (here: `none`). -/
def lifoPop : List Position → Option (Position × List Position)
  | [] => none
  | p :: rest => some (p, rest)

/-- Modelled from the spec: `asList` returns the stored positions, most recent
first. -/
def lifoAsList (l : List Position) : List Position := l

/-- Modelled from the spec: `timeDecaySet.py` is not under src/.  The found
set maps each URI to the time it was last added. -/
abbrev DecaySet := List (String × Nat)

/-- Modelled from the spec: an entry is still present while fewer than
`persistence` seconds have elapsed since it was added. -/
def tdFresh (persistence now t : Nat) : Bool := now < t + persistence

/-- Modelled from the spec: membership up to expiry. -/
def tdMem (persistence now : Nat) (s : DecaySet) (uri : String) : Bool :=
  s.any (fun e => e.1 == uri && tdFresh persistence now e.2)

/-- Modelled from the spec: `add(uri)` reports whether the URI was absent or
expired at call time, and inserts or refreshes its timestamp. -/
def tdAdd (persistence now : Nat) (s : DecaySet) (uri : String) :
    Bool × DecaySet :=
  let isNew := !(tdMem persistence now s uri)
  let s' :=
    if s.any (fun e => e.1 == uri) then
      s.map (fun e => if e.1 == uri then (uri, now) else e)
    else s ++ [(uri, now)]
  (isNew, s')

/-- Modelled from the spec: `asList()` lists the unexpired URIs in insertion
order. -/
def tdAsList (persistence now : Nat) (s : DecaySet) : List String :=
  (s.filter (fun e => tdFresh persistence now e.2)).map (·.1)

/-- Modelled from the spec: `size()` counts the unexpired entries. -/
def tdSize (persistence now : Nat) (s : DecaySet) : Nat :=
  (tdAsList persistence now s).length

/-- The mutable instance state of a `ChainCrawler` object (lines 61-94 and the
query fields assigned by `crawl`, lines 406-432). -/
structure CrawlState where
  entry_point : String
  current_uri : String
  current_uri_type : String
  current_uri_title : String
  crawl_history : List Position
  track_search_depth : Nat
  cache : CrawlerCacheWithCollisionHistory
  found_resources : DecaySet
  found_set_persistence : Nat
  find_called : Bool
  filter_keywords : List String
  qry_resource_type : Option String
  qry_resource_plural : List String
  qry_resource_title : Option String
  qry_extra : Option (List (String × String))
deriving DecidableEq

/-- The base filter list hard-coded in `__init__` (line 92). -/
def base_filter_keywords : List String :=
  ["edit", "create", "self", "curies", "websocket"]

/-- The keyword list built by `__init__`: the hard-coded base list followed by
the caller-supplied `filter_keywords` argument. -/
def init_filter_keywords (extra : List String) : List String :=
  base_filter_keywords ++ extra

/-- The keyword list of a default-constructed crawler: the constructor's
`filter_keywords` parameter defaults to `['previous', 'next']` (line 63). -/
def default_filter_keywords : List String :=
  init_filter_keywords ["previous", "next"]

/-- Python cross-type equality between a link-record dict and an href string:
`==` between a dict and a string is always `False`.  This is the comparison
the history-exclusion filter of `get_external_links` (line 203) performs. -/
def recordEqHref (_ : FlatLink) (_ : String) : Bool := false

/-- `ChainCrawler.get_external_links` (lines 194-209): flatten and filter the
`_links` section, drop the records the membership test against the history
hrefs removes (the test compares a record dict against strings, see
`recordEqHref`), and annotate each survivor with its cache status. -/
def get_external_links (fp : String → Nat) (s : CrawlState) (req_links : Links) :
    Option (List CrawlLink) :=
  (flatten_filter_link_array s.filter_keywords s.current_uri_type req_links).map
    (fun crawl_links =>
      let historyHrefs := (lifoAsList s.crawl_history).map (·.href)
      let filtered := crawl_links.filter
        (fun x => !(historyHrefs.any (fun h => recordEqHref x h)))
      filtered.map (fun l =>
        ⟨l.href, l.type, l.title, l.from_item_list, cacheCheck fp s.cache l.href⟩))

/-- The per-record match decision of `query_link_array` (lines 230-256): the
boolean flag of the loop is the conjunction of the per-criterion tests; the
plural test is Python's substring containment `type.lower() in x`. -/
def linkMatches (s : CrawlState) (l : CrawlLink) : Bool :=
  (match s.qry_resource_type with
   | none => true
   | some qt =>
     (s.qry_resource_plural.any (fun x => pyIn (pyLower l.type) x) && l.from_item_list)
       || (pyLower l.type == qt))
  &&
  (match s.qry_resource_title with
   | none => true
   | some tt => pyLower l.title == tt)

/-- `ChainCrawler.query_link_array` (lines 212-259): collect the hrefs of the
records that match every present criterion, in order. -/
def query_link_array (s : CrawlState) (crawl_links : List CrawlLink) :
    List String :=
  crawl_links.foldl (fun acc l => if linkMatches s l then acc ++ [l.href] else acc) []

/-- The match decision of `query_current_node` (lines 262-309): type and title
are compared against the current position's lowercased fields; each
`resource_extra` key must be present on the decoded resource with a value
equal (by plain `==`) to the expected one, a missing key failing the match. -/
def currentNodeMatches (s : CrawlState) (r : Resource) : Bool :=
  (match s.qry_resource_type with
   | none => true
   | some qt =>
     s.qry_resource_plural.any (fun x => pyIn (pyLower s.current_uri_type) x)
       || (pyLower s.current_uri_type == qt))
  &&
  (match s.qry_resource_title with
   | none => true
   | some tt => pyLower s.current_uri_title == tt)
  &&
  (match s.qry_extra with
   | none => true
   | some kvs => kvs.all (fun kv =>
     match (r.attrs.find? (fun a => a.1 == kv.1)).map (·.2) with
     | some av => av == kv.2
     | none => false))

/-- `ChainCrawler.query_current_node` (lines 262-309): the current URI, when
it matches. -/
def query_current_node (s : CrawlState) (r : Resource) : List String :=
  if currentNodeMatches s r then [s.current_uri] else []

/-- `ChainCrawler.push_uris_to_queue` (lines 312-341): attempt `add` on each
URI in order, threading the found set through; the returned flag says whether
at least one addition reported a new URI, and the third component collects, in
order, the URIs handed to the sink. -/
def push_uris_to_queue (now : Nat) (persistence : Nat) (found : DecaySet) :
    List String → Bool × DecaySet × List String
  | [] => (false, found, [])
  | uri :: rest =>
    let r := tdAdd persistence now found uri
    let out := push_uris_to_queue now persistence r.2 rest
    (r.1 || out.1, out.2.1, (if r.1 then [uri] else []) ++ out.2.2)

/-- The outcome of one `crawl_node` call: the returned boolean (continue or
stop), the updated instance state, and the URIs delivered to the sink. -/
structure StepOut where
  cont : Bool
  state : CrawlState
  delivered : List String
deriving DecidableEq

/-- Set the current position fields of the state. -/
def moveTo (s : CrawlState) (p : Position) : CrawlState :=
  { s with current_uri := p.href, current_uri_type := p.type,
           current_uri_title := p.title }

/-- The current position as a history record. -/
def currentPos (s : CrawlState) : Position :=
  ⟨s.current_uri, s.current_uri_type, s.current_uri_title⟩

/-- The entry point as a position, with the sentinel type and title the source
assigns when resetting (lines 490-492 and 571-573). -/
def entryPos (s : CrawlState) : Position :=
  ⟨s.entry_point, "entry_point", "entry_point"⟩

/-- The shared `pop the history, or on an empty history jump back to the entry
point` block (lines 563-573 and 480-493). -/
def popBackOrEntry (s : CrawlState) : CrawlState :=
  match lifoPop s.crawl_history with
  | some pr => moveTo { s with crawl_history := pr.2 } pr.1
  | none => moveTo s (entryPos s)

/-- `ChainCrawler.crawl_node` (lines 453-581), one step of the crawl.
`fetch` is the HTTP oracle, `rand` the random index source, `now` the wall
clock.  The result is `none` when the Python code would raise an uncaught
exception while flattening the links.  Note the translation of lines 543-573:
the entry-point fresh-start branch does not return and is not followed by an
`else`, so after it moves to the chosen candidate, control falls through into
the history-pop block. -/
def crawl_node (fp : String → Nat) (fetch : String → Option Resource)
    (rand : Nat → Nat) (now : Nat) (s0 : CrawlState) : Option StepOut :=
  let s := { s0 with cache := cachePut fp s0.cache s0.current_uri }
  match fetch s.current_uri with
  | none =>
    if s.current_uri == s.entry_point then some ⟨false, s, []⟩
    else some ⟨true, popBackOrEntry s, []⟩
  | some resource_json =>
    let applied := apply_hal_curies true resource_json
    match get_external_links fp s applied.links with
    | none => none
    | some crawl_links =>
      let matching_uris :=
        match s.qry_extra with
        | none => query_link_array s crawl_links
        | some _ => query_current_node s applied
      let pr := push_uris_to_queue now s.found_set_persistence s.found_resources
        matching_uris
      let s := { s with found_resources := pr.2.1 }
      if pr.1 && s.find_called then some ⟨false, s, pr.2.2⟩
      else
        let uncached_links := crawl_links.filter (fun x => !x.in_cache)
        if uncached_links.length > 0 then
          let chosen := uncached_links.getD (rand uncached_links.length)
            ⟨"", "", "", false, false⟩
          let pushed := lifoPush s.track_search_depth s.crawl_history (currentPos s)
          some ⟨true,
            moveTo { s with crawl_history := pushed }
              ⟨chosen.href, chosen.type, chosen.title⟩,
            pr.2.2⟩
        else
          if s.current_uri_type == "entry_point" then
            if crawl_links.length > 0 then
              let s1 := { s with cache := cacheClear s.cache }
              let chosen := crawl_links.getD (rand crawl_links.length)
                ⟨"", "", "", false, false⟩
              let pushed := lifoPush s1.track_search_depth s1.crawl_history (currentPos s1)
              let s2 := moveTo { s1 with crawl_history := pushed }
                ⟨chosen.href, chosen.type, chosen.title⟩
              some ⟨true, popBackOrEntry s2, pr.2.2⟩
            else some ⟨false, s, pr.2.2⟩
          else some ⟨true, popBackOrEntry s, pr.2.2⟩

/-- The `while(self.crawl_node())` loop of `crawl` (lines 436-450), with
explicit fuel: `none` when the run neither terminates nor crashes within
`fuel` steps, otherwise the instance state when the loop exits.  `nows` gives
the wall-clock time of each iteration. -/
def crawl_loop (fp : String → Nat) (fetch : String → Option Resource)
    (rand : Nat → Nat) (nows : Nat → Nat) :
    Nat → Nat → CrawlState → Option CrawlState
  | 0, _, _ => none
  | fuel + 1, k, s =>
    match crawl_node fp fetch rand (nows k) s with
    | none => none
    | some out =>
      if out.cont then crawl_loop fp fetch rand nows fuel (k + 1) out.state
      else some out.state

/-- The query-variable initialisation of `crawl` (lines 406-432). -/
def crawl_init_query (ns : String) (resource_type plural_resource_type
    resource_title : Option String)
    (resource_extra : Option (List (String × String))) (s : CrawlState) :
    CrawlState :=
  let s :=
    match resource_type with
    | some rt =>
      let qt := pyLower (ns ++ rt)
      let plurals := pluralize_resource_name qt ""
      let plurals :=
        match plural_resource_type with
        | some prt => plurals ++ [ns ++ prt]
        | none => plurals
      { s with qry_resource_type := some qt,
               qry_resource_plural := plurals.map pyLower }
    | none => { s with qry_resource_type := none }
  let s :=
    match resource_title with
    | some t => { s with qry_resource_title := some (pyLower t) }
    | none => { s with qry_resource_title := none }
  match resource_extra with
  | some e => { s with qry_extra := some e }
  | none => { s with qry_extra := none }

/-- `ChainCrawler.crawl` (lines 383-450): initialise the query fields and run
the step loop; the Python function returns `self.found_resources`, which is
the `found_resources` field of the returned state. -/
def crawl (fp : String → Nat) (fetch : String → Option Resource)
    (rand : Nat → Nat) (nows : Nat → Nat) (fuel : Nat) (ns : String)
    (resource_type plural_resource_type resource_title : Option String)
    (resource_extra : Option (List (String × String))) (s : CrawlState) :
    Option CrawlState :=
  crawl_loop fp fetch rand nows fuel 0
    (crawl_init_query ns resource_type plural_resource_type resource_title
      resource_extra s)

/-- The value `crawl` hands back to its caller: the found-resources set of the
terminal state. -/
def crawl_returns (fp : String → Nat) (fetch : String → Option Resource)
    (rand : Nat → Nat) (nows : Nat → Nat) (fuel : Nat) (ns : String)
    (resource_type plural_resource_type resource_title : Option String)
    (resource_extra : Option (List (String × String))) (s : CrawlState) :
    Option DecaySet :=
  (crawl fp fetch rand nows fuel ns resource_type plural_resource_type
    resource_title resource_extra s).map (·.found_resources)

/-- `ChainCrawler.find` (lines 584-596): set `find_called`, run `crawl`, and
return the first listed found URI when the set is non-empty, else `None`.
`endNow` is the wall-clock time at which `size`/`asList` are evaluated. -/
def find (fp : String → Nat) (fetch : String → Option Resource)
    (rand : Nat → Nat) (nows : Nat → Nat) (fuel : Nat) (endNow : Nat)
    (ns : String)
    (resource_type plural_resource_type resource_title : Option String)
    (resource_extra : Option (List (String × String))) (s : CrawlState) :
    Option (Option String × CrawlState) :=
  (crawl fp fetch rand nows fuel ns resource_type plural_resource_type
      resource_title resource_extra { s with find_called := true }).map
    (fun s' =>
      let uris := tdAsList s'.found_set_persistence endNow s'.found_resources
      (if uris.length ≥ 1 then uris.head? else none, s'))

/-- The link-type criterion exactly as the specification words it: the
record's type matches the (namespaced, lowercased) singular exactly, or it
matches one of the plural forms and the record's collection flag is true.
Written from the spec's words, to be compared with the source's
`linkMatches`. -/
def typeCriterionClaim (qt : String) (plurals : List String) (l : CrawlLink) : Bool :=
  (pyLower l.type == qt) || (plurals.contains (pyLower l.type) && l.from_item_list)

/-- The per-relation flattening rule as the specification words it (with the
full configured keyword list): an `items` relation expands into one record per
element inheriting the current type with the collection flag set; a relation
whose name contains a configured keyword contributes nothing; a null-valued
relation contributes nothing; any other relation contributes one record typed
by its own name.  Written from the spec's words, to be compared with the
source's `flattenRel`. -/
def flattenRelSpec (filter_keywords : List String) (current_uri_type : String)
    (kv : String × LinkVal) : List FlatLink :=
  match kv with
  | (key, LinkVal.items objs) =>
    if key == "items" then objs.map (fun o => ⟨o.href, current_uri_type, o.title, true⟩)
    else []
  | (key, LinkVal.single o) =>
    if filter_keywords.any (fun kw => pyIn kw (pyLower key)) then []
    else [⟨o.href, key, o.title, false⟩]
  | (_, LinkVal.null) => []
  | (_, LinkVal.curies _) => []

/-- A fingerprint oracle for concrete runs: every URI hashes to 0, so with a
one-slot table every URI is cached as soon as anything has been put. -/
def fpZero : String → Nat := fun _ => 0

/-- A random source for concrete runs: always selects index 0. -/
def randZero : Nat → Nat := fun _ => 0

/-- An HTTP oracle for concrete runs: every fetch raises `ConnectionError`. -/
def fetchFail : String → Option Resource := fun _ => none

/-- An HTTP oracle for concrete runs: every fetch succeeds with a resource
that has an empty `_links` section. -/
def fetchEmptyLinks : String → Option Resource :=
  fun _ => some { links := [], attrs := [] }

/-- The resource served at the entry point in concrete runs: one outbound
relation `foo` to URI `A`. -/
def entryResourceA : Resource :=
  { links := [("foo", LinkVal.single ⟨"A", "ta"⟩)], attrs := [] }

/-- An HTTP oracle serving `entryResourceA` at the entry point `E` and failing
everywhere else. -/
def fetchEntryA : String → Option Resource :=
  fun u => if u == "E" then some entryResourceA else none

/-- A fresh one-slot fingerprint cache (`mask_bits = 0`). -/
def freshCache1 : CrawlerCacheWithCollisionHistory :=
  { mask_bits := 0, table := [none] }

/-- A freshly constructed crawler at entry point `E`, as `__init__` builds it,
with a one-slot cache, no query, and default filter keywords. -/
def baseState : CrawlState :=
  { entry_point := "E"
    current_uri := "E"
    current_uri_type := "entry_point"
    current_uri_title := "entry_point"
    crawl_history := []
    track_search_depth := 5
    cache := freshCache1
    found_resources := []
    found_set_persistence := 100
    find_called := false
    filter_keywords := default_filter_keywords
    qry_resource_type := none
    qry_resource_plural := []
    qry_resource_title := none
    qry_extra := none }

/-- The fold of the outer loop of `apply_hal_curies` (lines 116-135): apply
each declared curie in order to the `_links` section. -/
def applyCuriesList (cs : List Curie) (ls : Links) : Links :=
  cs.foldl (fun acc c => applyOneCurie c acc) ls

/-- Well-formedness of a curie set over a `_links` section, as in actual HAL
documents: relation names are unique; each expanded name is fresh (not an
existing relation name); expanded names are pairwise distinct across all
curie/shorthand pairs; no expanded name is itself shorthand for a declared
curie (CPython's dict-iteration-under-mutation makes that capture case
unspecified, so it is excluded); and no relation name is shorthand for two
different declared curies. -/
abbrev WellFormedCuries (cs : List Curie) (ls : Links) : Prop :=
  (ls.map (·.1)).Nodup
  ∧ (∀ c ∈ cs, ∀ p ∈ ls, pyStartsWith p.1 (c.name ++ ":") = true →
      curieExp c p.1 ∉ ls.map (·.1))
  ∧ (∀ c ∈ cs, ∀ c' ∈ cs, ∀ p ∈ ls, ∀ q ∈ ls,
      pyStartsWith p.1 (c.name ++ ":") = true →
      pyStartsWith q.1 (c'.name ++ ":") = true →
      curieExp c p.1 = curieExp c' q.1 → c = c' ∧ p.1 = q.1)
  ∧ (∀ c ∈ cs, ∀ c' ∈ cs, ∀ p ∈ ls, pyStartsWith p.1 (c.name ++ ":") = true →
      pyStartsWith (curieExp c p.1) (c'.name ++ ":") = false)
  ∧ (∀ c ∈ cs, ∀ c' ∈ cs, ∀ p ∈ ls,
      pyStartsWith p.1 (c.name ++ ":") = true →
      pyStartsWith p.1 (c'.name ++ ":") = true → c = c')

/-- A concrete resource declaring two curies `ch` and `aq` with braced
templates, two shorthand links, and one plain link. -/
def curiesResource : Resource :=
  { links := [("curies", LinkVal.curies [⟨"ch", "http://x/rels/\x7brel\x7d"⟩,
                                         ⟨"aq", "http://y/\x7bz\x7d/doc"⟩]),
              ("ch:sites", LinkVal.single ⟨"http://x/sites", "sites"⟩),
              ("aq:dev", LinkVal.single ⟨"http://y/dev", "dev"⟩),
              ("plain", LinkVal.single ⟨"http://p", "p"⟩)],
    attrs := [] }

/-! Helper lemmas about the embedding, shared by the claim theorems. -/

@[simp]
theorem moveTo_find_called (s : CrawlState) (p : Position) :
    (moveTo s p).find_called = s.find_called := rfl

@[simp]
theorem moveTo_cache (s : CrawlState) (p : Position) :
    (moveTo s p).cache = s.cache := rfl

@[simp]
theorem popBackOrEntry_find_called (s : CrawlState) :
    (popBackOrEntry s).find_called = s.find_called := by
  cases hh : s.crawl_history <;> simp [popBackOrEntry, lifoPop, hh]

@[simp]
theorem popBackOrEntry_cache (s : CrawlState) :
    (popBackOrEntry s).cache = s.cache := by
  cases hh : s.crawl_history <;> simp [popBackOrEntry, lifoPop, hh]

theorem push_flag_iff_delivered (now persistence : Nat) (found : DecaySet)
    (uris : List String) :
    ((push_uris_to_queue now persistence found uris).1 = true ↔
      (push_uris_to_queue now persistence found uris).2.2 ≠ []) := by
  induction uris generalizing found with
  | nil => simp [push_uris_to_queue]
  | cons uri rest ih =>
    simp only [push_uris_to_queue]
    cases h : (tdAdd persistence now found uri).1 <;>
      simp [h, ih]

/-- C1: the specification's entry-point "fresh start": with the crawler at
the entry point `E`, every candidate cached (the constant fingerprint plus a
one-slot table make `A` cached as soon as `E` is recorded), and one candidate
`A` available, the claim says the step ends at `A` after clearing the cache.
The code's fresh-start branch (lines 543-556) is not followed by an `else`,
so after moving to `A` control falls through into the pop-history block
(lines 563-573), which pops the just-pushed entry position: the step really
ends back at `E` with the cache cleared and the history unchanged. -/
theorem c1_entry_fresh_start_ends_at_entry :
    (crawl_node fpZero fetchEntryA randZero 0 baseState).map
      (fun o => (o.cont, o.state.current_uri, o.state.current_uri_type,
        o.state.cache.table, o.state.crawl_history, o.delivered))
    = some (true, "E", "entry_point", [none], [], ["A"]) := rfl

/-- C3: the history-exclusion filter of `get_external_links` (line 203) tests
`x not in (y['href'] for y in history)`, comparing the whole record dict `x`
against href strings, which is always unequal in Python; so a record whose
href `A` is on the history is returned anyway, against both the spec and the
source's own comment. -/
theorem c3_history_exclusion_is_noop :
    get_external_links fpZero
      { baseState with crawl_history := [⟨"A", "foo", "ta"⟩] }
      [("foo", LinkVal.single ⟨"A", "ta"⟩)]
    = some [⟨"A", "foo", "ta", false, false⟩] := rfl

/-- C5 counterexample: a transport failure at the non-entry node `B` with one
history entry: the step does continue and does revert to the popped entry
`{H, th, tt}`, but the Fingerprint Cache is not left unchanged — the step
started by recording `B`'s fingerprint, so the table went from `[none]` to
`[some 0]`. -/
theorem c5_cache_not_unchanged_counterexample :
    ((crawl_node fpZero fetchFail randZero 0
        { baseState with
          current_uri := "B", current_uri_type := "bar",
          current_uri_title := "tb", crawl_history := [⟨"H", "th", "tt"⟩] }).map
      (fun o => (o.cont, o.state.current_uri, o.state.current_uri_type,
        o.state.current_uri_title, o.state.cache.table))
      = some (true, "H", "th", "tt", [some 0]))
    ∧ baseState.cache.table = [none]
    ∧ ([some 0] : List (Option Nat)) ≠ [none] :=
  ⟨rfl, rfl, by decide⟩

/-- C5 (amended): when fetching fails at a non-entry position the step
continues the run (returns true), delivers nothing, pops the history and
moves exactly to the popped entry (or to the entry point when the history is
empty), and the cache is exactly the old cache with the current URI's
fingerprint recorded at the start of the step — in particular it is not
cleared. -/
theorem c5_fetch_failure_backtracks (fp : String → Nat)
    (fetch : String → Option Resource) (rand : Nat → Nat) (now : Nat)
    (s : CrawlState) (hfail : fetch s.current_uri = none)
    (hne : s.current_uri ≠ s.entry_point) :
    crawl_node fp fetch rand now s =
      some ⟨true,
        (match s.crawl_history with
          | p :: rest =>
            { s with
                cache := cachePut fp s.cache s.current_uri,
                current_uri := p.href, current_uri_type := p.type,
                current_uri_title := p.title, crawl_history := rest }
          | [] =>
            { s with
                cache := cachePut fp s.cache s.current_uri,
                current_uri := s.entry_point, current_uri_type := "entry_point",
                current_uri_title := "entry_point" }),
        []⟩ := by
  have hbeq : (s.current_uri == s.entry_point) = false :=
    beq_eq_false_iff_ne.mpr hne
  cases hh : s.crawl_history <;>
    simp [crawl_node, hfail, hbeq, popBackOrEntry, lifoPop, moveTo, entryPos, hh]

/-- C5 witness: the amended theorem evaluated at the counterexample state. -/
theorem c5_fetch_failure_backtracks_witness :
    crawl_node fpZero fetchFail randZero 0
      { baseState with
        current_uri := "B", current_uri_type := "bar",
        current_uri_title := "tb", crawl_history := [⟨"H", "th", "tt"⟩] } =
      some ⟨true,
        { baseState with
          cache := ⟨0, [some 0]⟩, current_uri := "H",
          current_uri_type := "th", current_uri_title := "tt",
          crawl_history := [] }, []⟩ :=
  c5_fetch_failure_backtracks fpZero fetchFail randZero 0 _ rfl (by decide)

/-- C4 counterexample: the record `{type: "s", fromCollection: true}` against
the query singular `sensor` with plurals `[sensors, sensores]`: the code
reports a match (its plural test is Python substring containment, and `"s"`
is a substring of `"sensors"`), while the claim's criterion — exact equality
with the singular, or exact membership among the plurals — rejects it. -/
theorem c4_substring_plural_counterexample :
    query_link_array
        { baseState with
          qry_resource_type := some "sensor",
          qry_resource_plural := ["sensors", "sensores"] }
        [⟨"h", "s", "t", true, false⟩] = ["h"]
    ∧ typeCriterionClaim "sensor" ["sensors", "sensores"]
        ⟨"h", "s", "t", true, false⟩ = false :=
  ⟨rfl, rfl⟩

theorem foldl_push_eq_filter_map {α β : Type} (p : α → Bool) (f : α → β) :
    ∀ (ls : List α) (acc : List β),
      ls.foldl (fun a x => if p x then a ++ [f x] else a) acc
        = acc ++ (ls.filter p).map f := by
  intro ls
  induction ls with
  | nil => intro acc; simp
  | cons x xs ih =>
    intro acc
    cases h : p x <;> simp [List.filter_cons, h, ih]

/-- C4 (amended): with a type query present, `query_link_array` returns, in
order, the hrefs of exactly those records for which all present criteria
hold, where the type criterion is: the lowercased type equals the
(namespaced, lowercased) singular, or the lowercased type is a substring of
one of the plural forms and the record's `from_item_list` flag is true; the
title criterion, when queried, is exact (lowercased) equality. -/
theorem c4_query_link_array_characterization (s : CrawlState) (qt : String)
    (links : List CrawlLink) (h : s.qry_resource_type = some qt) :
    query_link_array s links =
      (links.filter (fun l =>
        ((s.qry_resource_plural.any (fun x => pyIn (pyLower l.type) x)
            && l.from_item_list)
          || (pyLower l.type == qt))
        && (match s.qry_resource_title with
            | none => true
            | some tt => pyLower l.title == tt))).map (fun l => l.href) := by
  unfold query_link_array
  rw [foldl_push_eq_filter_map (fun l => linkMatches s l) (fun l => l.href)]
  have hp : (fun l => linkMatches s l) = (fun (l : CrawlLink) =>
      ((s.qry_resource_plural.any (fun x => pyIn (pyLower l.type) x)
          && l.from_item_list)
        || (pyLower l.type == qt))
      && (match s.qry_resource_title with
          | none => true
          | some tt => pyLower l.title == tt)) := by
    funext l
    unfold linkMatches
    rw [h]
  rw [hp]
  simp

/-- C4 witness: the characterization evaluated at the counterexample input. -/
theorem c4_query_link_array_characterization_witness :
    query_link_array
        { baseState with
          qry_resource_type := some "sensor",
          qry_resource_plural := ["sensors", "sensores"] }
        [⟨"h", "s", "t", true, false⟩, ⟨"h2", "other", "t", true, false⟩]
      = ["h"] :=
  c4_query_link_array_characterization _ "sensor" _ rfl

/-- C8 counterexample: with the query `extra = {a: x}`, a resource carrying
`a = X` does not match although the two values differ only in case, while
`a = x` does: the extra-attribute comparison of `query_current_node` is plain
`==`, not case-insensitive. -/
theorem c8_extra_compare_case_sensitive_counterexample :
    query_current_node { baseState with qry_extra := some [("a", "x")] }
        { links := [], attrs := [("a", "X")] } = []
    ∧ pyLower "X" = pyLower "x"
    ∧ query_current_node { baseState with qry_extra := some [("a", "x")] }
        { links := [], attrs := [("a", "x")] } = ["E"] :=
  ⟨rfl, rfl, rfl⟩

/-- C8 (amended): the type and title comparisons of both matchers are
case-insensitive — the decisions are invariant under changing the case of the
record's type and title (for link records) and of the current position's type
and title (for the current node) — while the extra-attribute comparison is
exact and case-sensitive (see the counterexample). -/
theorem c8_type_title_case_insensitive (s : CrawlState) (l l' : CrawlLink)
    (ht : pyLower l.type = pyLower l'.type)
    (hti : pyLower l.title = pyLower l'.title)
    (hf : l.from_item_list = l'.from_item_list) :
    (linkMatches s l = linkMatches s l')
    ∧ ∀ (a b : String) (r : Resource),
        pyLower a = pyLower s.current_uri_type →
        pyLower b = pyLower s.current_uri_title →
        currentNodeMatches
            { s with current_uri_type := a, current_uri_title := b } r
          = currentNodeMatches s r := by
  constructor
  · unfold linkMatches
    rw [ht, hti, hf]
  · intro a b r ha hb
    unfold currentNodeMatches
    dsimp only
    rw [ha, hb]

/-- C8 witness: case-variant link records decide alike, and a case-variant
current position decides alike. -/
theorem c8_type_title_case_insensitive_witness :
    (linkMatches baseState ⟨"h", "FOO", "TiT", true, false⟩
      = linkMatches baseState ⟨"h2", "foo", "tit", true, false⟩)
    ∧ currentNodeMatches
        { baseState with
          current_uri_type := "ENTRY_POINT",
          current_uri_title := "Entry_Point" } { links := [], attrs := [] }
      = currentNodeMatches baseState { links := [], attrs := [] } :=
  ⟨(c8_type_title_case_insensitive baseState ⟨"h", "FOO", "TiT", true, false⟩
      ⟨"h2", "foo", "tit", true, false⟩ rfl rfl rfl).1,
   (c8_type_title_case_insensitive baseState ⟨"h", "FOO", "TiT", true, false⟩
      ⟨"h2", "foo", "tit", true, false⟩ rfl rfl rfl).2
     "ENTRY_POINT" "Entry_Point" { links := [], attrs := [] } rfl rfl⟩

/-- C6 counterexample: a default-constructed crawler drops the relation
`previous` although its name contains none of the five keywords the claim
lists as the default set — `__init__`'s `filter_keywords` parameter defaults
to `['previous', 'next']`, which is appended to the base five. -/
theorem c6_default_keywords_counterexample :
    flatten_filter_link_array default_filter_keywords "ty"
        [("previous", LinkVal.single ⟨"h", "t"⟩)] = some []
    ∧ (base_filter_keywords.any (fun kw => pyIn kw (pyLower "previous"))) = false
    ∧ flatten_filter_link_array base_filter_keywords "ty"
        [("previous", LinkVal.single ⟨"h", "t"⟩)]
      = some [⟨"h", "previous", "t", false⟩] :=
  ⟨rfl, rfl, rfl⟩

theorem flattenRel_spec_of_ok (fk : List String) (cty : String)
    (kv : String × LinkVal) (h : flattenRel fk cty kv ≠ none) :
    flattenRel fk cty kv = some (flattenRelSpec fk cty kv) := by
  obtain ⟨key, v⟩ := kv
  by_cases hk : (key == "items") = true
  · cases v with
    | items objs => simp [flattenRel, flattenRelSpec, hk]
    | single o => exact absurd (by simp [flattenRel, hk]) h
    | curies cs => exact absurd (by simp [flattenRel, hk]) h
    | null => exact absurd (by simp [flattenRel, hk]) h
  · by_cases hf : (fk.any (fun kw => pyIn kw (pyLower key))) = true
    · cases v <;>
        simp_all [flattenRel, flattenRelSpec, hk, hf]
    · cases v with
      | single o => simp [flattenRel, flattenRelSpec, hk, hf]
      | null => simp [flattenRel, flattenRelSpec, hk, hf]
      | items objs => exact absurd (by simp [flattenRel, hk, hf]) h
      | curies cs => exact absurd (by simp [flattenRel, hk, hf]) h

/-- C6 (amended): on any `_links` section on which the code does not raise,
`flatten_filter_link_array` produces exactly the concatenation, in relation
order, of the per-relation records described by the spec — `items` expanded
per element with the inherited type and the collection flag set, keyworded
and null relations dropped, every other relation one record typed by its own
name — with the default keyword set being the base five plus the
constructor-default `previous` and `next`. -/
theorem c6_flatten_filter_characterization (fk : List String) (cty : String)
    (req_links : Links)
    (hok : ∀ kv ∈ req_links, flattenRel fk cty kv ≠ none) :
    (flatten_filter_link_array fk cty req_links
      = some ((req_links.map (flattenRelSpec fk cty)).flatten))
    ∧ default_filter_keywords
      = ["edit", "create", "self", "curies", "websocket", "previous", "next"] := by
  constructor
  · revert hok
    induction req_links with
    | nil => intro _; rfl
    | cons kv rest ih =>
      intro hok
      have hr := flattenRel_spec_of_ok fk cty kv (hok kv (List.mem_cons_self _ _))
      have ih' := ih (fun x hx => hok x (List.mem_cons_of_mem _ hx))
      simp [flatten_filter_link_array, hr, ih']
  · rfl

/-- C6 witness: the characterization evaluated on a section exercising every
rule — an `items` collection, a plain relation, a keyword-filtered relation,
and a null relation — under the default keyword set. -/
theorem c6_flatten_filter_characterization_witness :
    (flatten_filter_link_array default_filter_keywords "ty"
        [("items", LinkVal.items [⟨"i", "ti"⟩]),
         ("foo", LinkVal.single ⟨"h", "t"⟩),
         ("previous", LinkVal.single ⟨"p", "tp"⟩),
         ("bar", LinkVal.null)]
      = some [⟨"i", "ty", "ti", true⟩, ⟨"h", "foo", "t", false⟩])
    ∧ default_filter_keywords
      = ["edit", "create", "self", "curies", "websocket", "previous", "next"] :=
  c6_flatten_filter_characterization default_filter_keywords "ty" _ (by decide)


/-- C2 counterexample: two worlds — one where the entry point is unreachable
(`fetchFail`), one where the entry point serves a resource with no links at
all (`fetchEmptyLinks`).  Both runs of `crawl` terminate and hand the caller
the identical value (the empty found-resources set): the two fatal entry
conditions are not surfaced as explicit failures and are not distinguishable
from each other or from a normal empty result. -/
theorem c2_fatal_outcomes_indistinguishable :
    crawl_returns fpZero fetchFail randZero (fun _ => 0) 5 "" none none none
        none baseState = some []
    ∧ crawl_returns fpZero fetchEmptyLinks randZero (fun _ => 0) 5 "" none none
        none none baseState = some []
    ∧ fetchFail baseState.entry_point = none
    ∧ fetchEmptyLinks baseState.entry_point = some { links := [], attrs := [] } :=
  ⟨rfl, rfl, rfl, rfl⟩

/-- C2 (amended): a `crawl_node` call that ends the run does so in exactly one
of three situations — transport failure at the entry point, at least one
delivery in find mode, or no candidate links at an entry-point-typed position —
and `crawl` then merely returns the found-resources set (`crawl_returns`), so
the two fatal entry conditions are only logged, not surfaced as explicit
failures. -/
theorem c2_terminal_characterization (fp : String → Nat)
    (fetch : String → Option Resource) (rand : Nat → Nat) (now : Nat)
    (s : CrawlState) (out : StepOut)
    (h : crawl_node fp fetch rand now s = some out) (hstop : out.cont = false) :
    (fetch s.current_uri = none ∧ s.current_uri = s.entry_point)
    ∨ (s.find_called = true ∧ out.delivered ≠ [])
    ∨ (s.current_uri_type = "entry_point"
        ∧ ∃ r, fetch s.current_uri = some r
          ∧ get_external_links fp
              { s with cache := cachePut fp s.cache s.current_uri }
              (apply_hal_curies true r).links = some []) := by
  simp only [crawl_node] at h
  split at h
  next heq =>
    split at h
    next hc =>
      cases h
      exact Or.inl ⟨heq, eq_of_beq hc⟩
    next hc =>
      cases h
      simp at hstop
  next r heq =>
    split at h
    next hg => exact absurd h (by simp)
    next crawl_links hg =>
      split at h
      next hcond =>
        cases h
        refine Or.inr (Or.inl ⟨(Bool.and_eq_true _ _).mp hcond |>.2, ?_⟩)
        exact (push_flag_iff_delivered now s.found_set_persistence
          s.found_resources (match s.qry_extra with
            | none => query_link_array s crawl_links
            | some _ => query_current_node s (apply_hal_curies true r))).mp
          ((Bool.and_eq_true _ _).mp hcond).1
      next hcond =>
        split at h
        next hu =>
          cases h
          simp at hstop
        next hu =>
          split at h
          next hentry =>
            split at h
            next hl =>
              cases h
              simp at hstop
            next hl =>
              cases h
              refine Or.inr (Or.inr ⟨eq_of_beq hentry, r, heq, ?_⟩)
              have hnil : crawl_links = [] := by simpa using hl
              rw [hnil] at hg
              exact hg
          next hentry =>
            cases h
            simp at hstop

/-- C2 witness: the characterization applied to the no-links world, where the
run stops with the third disjunct. -/
theorem c2_terminal_characterization_witness :
    (fetchEmptyLinks baseState.current_uri = none
      ∧ baseState.current_uri = baseState.entry_point)
    ∨ (baseState.find_called = true ∧ ([] : List String) ≠ [])
    ∨ (baseState.current_uri_type = "entry_point"
        ∧ ∃ r, fetchEmptyLinks baseState.current_uri = some r
          ∧ get_external_links fpZero
              { baseState with
                cache := cachePut fpZero baseState.cache baseState.current_uri }
              (apply_hal_curies true r).links = some []) :=
  c2_terminal_characterization fpZero fetchEmptyLinks randZero 0 baseState _
    rfl rfl

theorem crawl_node_find_called_eq (fp : String → Nat)
    (fetch : String → Option Resource) (rand : Nat → Nat) (now : Nat)
    (s : CrawlState) (out : StepOut)
    (h : crawl_node fp fetch rand now s = some out) :
    out.state.find_called = s.find_called := by
  simp only [crawl_node] at h
  split at h
  next heq =>
    split at h
    next hc => cases h; rfl
    next hc => cases h; simp
  next r heq =>
    split at h
    next hg => exact absurd h (by simp)
    next crawl_links hg =>
      split at h
      next hcond => cases h; rfl
      next hcond =>
        split at h
        next hu => cases h; simp
        next hu =>
          split at h
          next hentry =>
            split at h
            next hl => cases h; simp
            next hl => cases h; rfl
          next hentry => cases h; simp

theorem crawl_node_stops_on_delivery (fp : String → Nat)
    (fetch : String → Option Resource) (rand : Nat → Nat) (now : Nat)
    (s : CrawlState) (out : StepOut)
    (h : crawl_node fp fetch rand now s = some out)
    (hfind : s.find_called = true) (hdel : out.delivered ≠ []) :
    out.cont = false := by
  simp only [crawl_node] at h
  split at h
  next heq =>
    split at h
    next hc => cases h; rfl
    next hc => cases h; exact absurd rfl hdel
  next r heq =>
    split at h
    next hg => exact absurd h (by simp)
    next crawl_links hg =>
      split at h
      next hcond => cases h; rfl
      next hcond =>
        exfalso
        apply hcond
        refine (Bool.and_eq_true _ _).mpr ⟨?_, hfind⟩
        apply (push_flag_iff_delivered _ _ _ _).mpr
        split at h
        next hu => cases h; exact hdel
        next hu =>
          split at h
          next hentry =>
            split at h
            next hl => cases h; exact hdel
            next hl => cases h; exact hdel
          next hentry => cases h; exact hdel

theorem crawl_loop_find_called_eq (fp : String → Nat)
    (fetch : String → Option Resource) (rand : Nat → Nat) (nows : Nat → Nat) :
    ∀ (fuel k : Nat) (s s' : CrawlState),
      crawl_loop fp fetch rand nows fuel k s = some s' →
      s'.find_called = s.find_called := by
  intro fuel
  induction fuel with
  | zero => intro k s s' h; exact absurd h (by simp [crawl_loop])
  | succ n ih =>
    intro k s s' h
    simp only [crawl_loop] at h
    split at h
    next hn => exact absurd h (by simp)
    next out hn =>
      split at h
      next hc =>
        rw [ih (k + 1) out.state s' h]
        exact crawl_node_find_called_eq fp fetch rand (nows k) s out hn
      next hc =>
        cases h
        exact crawl_node_find_called_eq fp fetch rand (nows k) s out hn

theorem crawl_init_query_find_called_eq (ns : String)
    (rt prt rtitle : Option String) (rextra : Option (List (String × String)))
    (s : CrawlState) :
    (crawl_init_query ns rt prt rtitle rextra s).find_called = s.find_called := by
  unfold crawl_init_query
  cases rt <;> cases prt <;> cases rtitle <;> cases rextra <;> rfl

theorem crawl_find_called_eq (fp : String → Nat)
    (fetch : String → Option Resource) (rand : Nat → Nat) (nows : Nat → Nat)
    (fuel : Nat) (ns : String) (rt prt rtitle : Option String)
    (rextra : Option (List (String × String))) (s s' : CrawlState)
    (h : crawl fp fetch rand nows fuel ns rt prt rtitle rextra s = some s') :
    s'.find_called = s.find_called := by
  unfold crawl at h
  rw [crawl_loop_find_called_eq fp fetch rand nows fuel 0 _ s' h]
  exact crawl_init_query_find_called_eq ns rt prt rtitle rextra s

theorem find_sets_find_called (fp : String → Nat)
    (fetch : String → Option Resource) (rand : Nat → Nat) (nows : Nat → Nat)
    (fuel endNow : Nat) (ns : String) (rt prt rtitle : Option String)
    (rextra : Option (List (String × String))) (s : CrawlState)
    (res : Option String × CrawlState)
    (h : find fp fetch rand nows fuel endNow ns rt prt rtitle rextra s = some res) :
    res.2.find_called = true := by
  unfold find at h
  cases hc : crawl fp fetch rand nows fuel ns rt prt rtitle rextra
      { s with find_called := true } with
  | none => rw [hc] at h; exact absurd h (by simp)
  | some s' =>
    rw [hc] at h
    have hres : (if (tdAsList s'.found_set_persistence endNow
          s'.found_resources).length ≥ 1
        then (tdAsList s'.found_set_persistence endNow s'.found_resources).head?
        else none, s') = res := by simpa using h
    have h2 : res.2 = s' := by rw [← hres]
    rw [h2, crawl_find_called_eq fp fetch rand nows fuel ns rt prt rtitle
      rextra _ s' hc]

theorem find_returns_head_of_list (fp : String → Nat)
    (fetch : String → Option Resource) (rand : Nat → Nat) (nows : Nat → Nat)
    (fuel endNow : Nat) (ns : String) (rt prt rtitle : Option String)
    (rextra : Option (List (String × String))) (s : CrawlState)
    (res : Option String × CrawlState)
    (h : find fp fetch rand nows fuel endNow ns rt prt rtitle rextra s = some res) :
    res.1 = (tdAsList res.2.found_set_persistence endNow
      res.2.found_resources).head? := by
  unfold find at h
  cases hc : crawl fp fetch rand nows fuel ns rt prt rtitle rextra
      { s with find_called := true } with
  | none => rw [hc] at h; exact absurd h (by simp)
  | some s' =>
    rw [hc] at h
    have hres : (if (tdAsList s'.found_set_persistence endNow
          s'.found_resources).length ≥ 1
        then (tdAsList s'.found_set_persistence endNow s'.found_resources).head?
        else none, s') = res := by simpa using h
    rw [← hres]
    by_cases hl : (tdAsList s'.found_set_persistence endNow
        s'.found_resources).length ≥ 1
    · rw [if_pos hl]
    · rw [if_neg hl]
      have hnil : tdAsList s'.found_set_persistence endNow s'.found_resources
          = [] := by simpa using hl
      rw [hnil]
      rfl

/-- C9 counterexample: on an instance whose Discovery Set still holds the
unexpired URI `old` from an earlier crawl, `find` with an unreachable entry
point — a run in which nothing whatsoever is delivered, witnessed by the
found set being exactly the old one — returns `old` instead of the `None`
the claim requires. -/
theorem c9_stale_result_counterexample :
    (find fpZero fetchFail randZero (fun _ => 0) 5 0 "" none none none none
        { baseState with found_resources := [("old", 0)] }).map (fun p => p.1)
      = some (some "old")
    ∧ (find fpZero fetchFail randZero (fun _ => 0) 5 0 "" none none none none
        { baseState with found_resources := [("old", 0)] }).map
        (fun p => p.2.found_resources)
      = some [("old", 0)] :=
  ⟨rfl, rfl⟩

/-- C9 (amended): in find mode the crawl stops at any step in which at least
one Discovery-Set addition reported a new URI, and `find` returns the first
element of the found set's unexpired listing when that listing is non-empty —
a listing that can still contain URIs recorded before the call — and `None`
exactly when the listing is empty. -/
theorem c9_find_first_stops_and_returns_head :
    (∀ (fp : String → Nat) (fetch : String → Option Resource)
        (rand : Nat → Nat) (now : Nat) (s : CrawlState) (out : StepOut),
      crawl_node fp fetch rand now s = some out → s.find_called = true →
      out.delivered ≠ [] → out.cont = false)
    ∧ (∀ (fp : String → Nat) (fetch : String → Option Resource)
        (rand : Nat → Nat) (nows : Nat → Nat) (fuel endNow : Nat) (ns : String)
        (rt prt rtitle : Option String)
        (rextra : Option (List (String × String))) (s : CrawlState)
        (res : Option String × CrawlState),
      find fp fetch rand nows fuel endNow ns rt prt rtitle rextra s = some res →
      res.1 = (tdAsList res.2.found_set_persistence endNow
        res.2.found_resources).head?) :=
  ⟨crawl_node_stops_on_delivery, find_returns_head_of_list⟩

/-- C9 witness: a delivering step in find mode stops the run, and a concrete
`find` run returns the head of its unexpired listing. -/
theorem c9_find_first_stops_and_returns_head_witness :
    ((⟨false,
      { baseState with
        find_called := true, cache := ⟨0, [some 0]⟩,
        found_resources := [("A", 0)] }, ["A"]⟩ : StepOut).cont = false)
    ∧ (some "old" : Option String) = (tdAsList 100 0 [("old", 0)]).head? :=
  ⟨c9_find_first_stops_and_returns_head.1 fpZero fetchEntryA randZero 0
      { baseState with find_called := true } _ rfl rfl (by decide),
   c9_find_first_stops_and_returns_head.2 fpZero fetchFail randZero
      (fun _ => 0) 5 0 "" none none none none
      { baseState with found_resources := [("old", 0)] } _ rfl⟩

/-- C10: `find_called` is set by `find` and never reset — `crawl_node`,
`crawl_loop` and `crawl` all leave it unchanged, every terminating `find`
leaves it `true` on the instance, and with `find_called` set any step that
delivers ends the run, so every later `crawl` on the same instance also stops
at its first delivery. -/
theorem c10_find_called_latch :
    (∀ (fp : String → Nat) (fetch : String → Option Resource)
        (rand : Nat → Nat) (now : Nat) (s : CrawlState) (out : StepOut),
      crawl_node fp fetch rand now s = some out →
      out.state.find_called = s.find_called)
    ∧ (∀ (fp : String → Nat) (fetch : String → Option Resource)
        (rand : Nat → Nat) (nows : Nat → Nat) (fuel k : Nat)
        (s s' : CrawlState),
      crawl_loop fp fetch rand nows fuel k s = some s' →
      s'.find_called = s.find_called)
    ∧ (∀ (fp : String → Nat) (fetch : String → Option Resource)
        (rand : Nat → Nat) (nows : Nat → Nat) (fuel : Nat) (ns : String)
        (rt prt rtitle : Option String)
        (rextra : Option (List (String × String))) (s s' : CrawlState),
      crawl fp fetch rand nows fuel ns rt prt rtitle rextra s = some s' →
      s'.find_called = s.find_called)
    ∧ (∀ (fp : String → Nat) (fetch : String → Option Resource)
        (rand : Nat → Nat) (nows : Nat → Nat) (fuel endNow : Nat) (ns : String)
        (rt prt rtitle : Option String)
        (rextra : Option (List (String × String))) (s : CrawlState)
        (res : Option String × CrawlState),
      find fp fetch rand nows fuel endNow ns rt prt rtitle rextra s = some res →
      res.2.find_called = true)
    ∧ (∀ (fp : String → Nat) (fetch : String → Option Resource)
        (rand : Nat → Nat) (now : Nat) (s : CrawlState) (out : StepOut),
      crawl_node fp fetch rand now s = some out → s.find_called = true →
      out.delivered ≠ [] → out.cont = false) :=
  ⟨crawl_node_find_called_eq,
   fun fp fetch rand nows => crawl_loop_find_called_eq fp fetch rand nows,
   crawl_find_called_eq, find_sets_find_called, crawl_node_stops_on_delivery⟩

/-- C10 witness: the latch conjuncts applied at concrete runs. -/
theorem c10_find_called_latch_witness :
    (({ baseState with cache := ⟨0, [some 0]⟩ } : CrawlState).find_called
      = baseState.find_called)
    ∧ (({ baseState with cache := ⟨0, [some 0]⟩ } : CrawlState).find_called
      = baseState.find_called)
    ∧ (({ baseState with cache := ⟨0, [some 0]⟩ } : CrawlState).find_called
      = baseState.find_called)
    ∧ (({ baseState with
          find_called := true, cache := ⟨0, [some 0]⟩ } : CrawlState).find_called
      = true)
    ∧ ((⟨false,
        { baseState with
          find_called := true, cache := ⟨0, [some 0]⟩,
          found_resources := [("A", 0)] }, ["A"]⟩ : StepOut).cont = false) :=
  ⟨c10_find_called_latch.1 fpZero fetchFail randZero 0 baseState _ rfl,
   c10_find_called_latch.2.1 fpZero fetchFail randZero (fun _ => 0) 1 0
     baseState _ rfl,
   c10_find_called_latch.2.2.1 fpZero fetchFail randZero (fun _ => 0) 5 ""
     none none none none baseState _ rfl,
   c10_find_called_latch.2.2.2.1 fpZero fetchFail randZero (fun _ => 0) 5 0 ""
     none none none none baseState _ rfl,
   c10_find_called_latch.2.2.2.2 fpZero fetchEntryA randZero 0
     { baseState with find_called := true } _ rfl rfl (by decide)⟩

theorem not_beq_of_not_mem_keys {ls : Links} {k : String} (p : String × LinkVal)
    (hp : p ∈ ls) (h : k ∉ ls.map (·.1)) : (p.1 == k) = false := by
  refine beq_eq_false_iff_ne.mpr (fun he => h ?_)
  exact List.mem_map.mpr ⟨p, hp, he⟩

theorem lookupKey_eq_none_of_not_mem (ls : Links) (k : String)
    (h : k ∉ ls.map (·.1)) : lookupKey ls k = none := by
  unfold lookupKey
  rw [List.find?_eq_none.mpr]
  · rfl
  · intro p hp
    simp [not_beq_of_not_mem_keys p hp h]

theorem lookupKey_cons_self (k : String) (v : LinkVal) (rest : Links) :
    lookupKey ((k, v) :: rest) k = some v := by
  unfold lookupKey
  rw [List.find?_cons_of_pos _ (by simp)]
  rfl

theorem lookupKey_append_right_of_not_mem (xs ys : Links) (k : String)
    (h : k ∉ xs.map (·.1)) : lookupKey (xs ++ ys) k = lookupKey ys k := by
  induction xs with
  | nil => rfl
  | cons a as ih =>
    have hb := not_beq_of_not_mem_keys a (List.mem_cons_self a as) h
    have h2 : k ∉ as.map (·.1) := by
      simp only [List.map_cons, List.mem_cons, not_or] at h
      exact h.2
    unfold lookupKey
    rw [List.cons_append, List.find?_cons_of_neg _ (by simp [hb])]
    exact ih h2

theorem setKey_append_of_not_mem (ls : Links) (k : String) (v : LinkVal)
    (h : k ∉ ls.map (·.1)) : setKey ls k v = ls ++ [(k, v)] := by
  unfold setKey
  rw [if_neg]
  intro hc
  rw [List.any_eq_true] at hc
  obtain ⟨p, hp, he⟩ := hc
  rw [not_beq_of_not_mem_keys p hp h] at he
  exact Bool.false_ne_true he

theorem delKey_eq_self_of_not_mem (ls : Links) (k : String)
    (h : k ∉ ls.map (·.1)) : delKey ls k = ls := by
  unfold delKey
  apply List.filter_eq_self.mpr
  intro p hp
  simp [bne, not_beq_of_not_mem_keys p hp h]

theorem delKey_append (xs ys : Links) (k : String) :
    delKey (xs ++ ys) k = delKey xs k ++ delKey ys k := by
  simp [delKey, List.filter_append]

theorem delKey_cons_self (k : String) (v : LinkVal) (rest : Links) :
    delKey ((k, v) :: rest) k = delKey rest k := by
  simp [delKey]

theorem delKey_cons_of_ne (a : String × LinkVal) (rest : Links) (k : String)
    (h : a.1 ≠ k) : delKey (a :: rest) k = a :: delKey rest k := by
  simp [delKey, List.filter_cons, bne, beq_eq_false_iff_ne.mpr h]

theorem lookupKey_delKey_ne (ls : Links) (k kk : String) (h : k ≠ kk) :
    lookupKey (delKey ls kk) k = lookupKey ls k := by
  induction ls with
  | nil => rfl
  | cons a as ih =>
    by_cases ha : a.1 = kk
    · have hb : (a.1 == k) = false := beq_eq_false_iff_ne.mpr (fun he => h (he ▸ ha))
      have hd : delKey (a :: as) kk = delKey as kk := by
        obtain ⟨a1, a2⟩ := a
        subst ha
        exact delKey_cons_self _ _ _
      rw [hd, ih]
      unfold lookupKey
      rw [List.find?_cons_of_neg _ (by simp [hb])]
    · rw [delKey_cons_of_ne a as kk ha]
      by_cases hak : a.1 = k
      · unfold lookupKey
        rw [List.find?_cons_of_pos _ (by simp [hak]),
          List.find?_cons_of_pos _ (by simp [hak])]
      · have hb : (a.1 == k) = false := beq_eq_false_iff_ne.mpr hak
        unfold lookupKey
        rw [List.find?_cons_of_neg _ (by simp [hb]),
          List.find?_cons_of_neg _ (by simp [hb])]
        exact ih

theorem lookupKey_delKey_self (ls : Links) (k : String) :
    lookupKey (delKey ls k) k = none := by
  apply lookupKey_eq_none_of_not_mem
  intro hm
  obtain ⟨p, hp, he⟩ := List.mem_map.mp hm
  have hf := (List.mem_filter.mp hp).2
  rw [bne_iff_ne] at hf
  exact hf he


theorem applyOneCurie_go (c : Curie) :
    ∀ (l pre post : Links),
      ((pre ++ l ++ post).map (·.1)).Nodup →
      (∀ p ∈ l, pyStartsWith p.1 (c.name ++ ":") = true →
        curieExp c p.1 ∉ (pre ++ l ++ post).map (·.1)) →
      (∀ p ∈ l, ∀ q ∈ l, pyStartsWith p.1 (c.name ++ ":") = true →
        pyStartsWith q.1 (c.name ++ ":") = true →
        curieExp c p.1 = curieExp c q.1 → p.1 = q.1) →
      (l.map (·.1)).foldl (applyCurieStep c) (pre ++ l ++ post)
        = pre ++ l.filter (fun p => !(pyStartsWith p.1 (c.name ++ ":"))) ++ post
            ++ (l.filter (fun p => pyStartsWith p.1 (c.name ++ ":"))).map
                (fun p => (curieExp c p.1, p.2)) := by
  intro l
  induction l with
  | nil => intro pre post _ _ _; simp
  | cons hd rest ih =>
    intro pre post hnd hfresh hinj
    obtain ⟨k, v⟩ := hd
    have hndk : (pre.map (·.1) ++ (k :: rest.map (·.1)) ++ post.map (·.1)).Nodup := by
      simpa using hnd
    have hk_pre : k ∉ pre.map (·.1) := by
      have hd12 := (List.nodup_append.mp (List.nodup_append.mp hndk).1).2.2
      exact fun hm => hd12 hm (List.mem_cons_self _ _)
    have hk_rest : k ∉ rest.map (·.1) := by
      have := (List.nodup_append.mp (List.nodup_append.mp hndk).1).2.1
      exact (List.nodup_cons.mp this).1
    have hk_post : k ∉ post.map (·.1) := by
      have := (List.nodup_append.mp hndk).2.2
      exact fun hm => this (by simp) hm
    by_cases hpref : pyStartsWith k (c.name ++ ":") = true
    · have hexp0 := hfresh (k, v) (List.mem_cons_self _ _) hpref
      simp only [List.map_append, List.map_cons, List.mem_append,
        List.mem_cons, not_or] at hexp0
      obtain ⟨⟨hexp_pre, hexp_k, hexp_rest⟩, hexp_post⟩ := hexp0
      have hstep : applyCurieStep c (pre ++ (k, v) :: rest ++ post) k
          = pre ++ rest ++ (post ++ [(curieExp c k, v)]) := by
        unfold applyCurieStep
        rw [if_pos hpref]
        have hl : lookupKey (pre ++ (k, v) :: rest ++ post) k = some v := by
          rw [List.append_assoc, lookupKey_append_right_of_not_mem _ _ _ hk_pre]
          exact lookupKey_cons_self _ _ _
        rw [hl]
        show delKey (setKey (pre ++ (k, v) :: rest ++ post) (curieExp c k) v) k
          = pre ++ rest ++ (post ++ [(curieExp c k, v)])
        have hset : setKey (pre ++ (k, v) :: rest ++ post) (curieExp c k) v
            = (pre ++ (k, v) :: rest ++ post) ++ [(curieExp c k, v)] := by
          apply setKey_append_of_not_mem
          simp only [List.map_append, List.map_cons, List.mem_append,
            List.mem_cons, not_or]
          exact ⟨⟨hexp_pre, hexp_k, hexp_rest⟩, hexp_post⟩
        rw [hset, delKey_append, delKey_append, delKey_append,
          delKey_eq_self_of_not_mem pre k hk_pre,
          delKey_eq_self_of_not_mem post k hk_post,
          delKey_cons_self, delKey_eq_self_of_not_mem rest k hk_rest]
        have hone : delKey [(curieExp c k, v)] k = [(curieExp c k, v)] := by
          apply delKey_eq_self_of_not_mem
          simp only [List.map_cons, List.map_nil, List.mem_singleton]
          exact fun he => hexp_k he.symm
        rw [hone]
        simp
      have hbase : (pre.map (·.1) ++ rest.map (·.1) ++ post.map (·.1)).Nodup := by
        refine hndk.sublist ?_
        exact List.Sublist.append
          (List.Sublist.append (List.Sublist.refl _)
            ((List.Sublist.refl _).cons _))
          (List.Sublist.refl _)
      have hexp_base : curieExp c k
          ∉ (pre.map (·.1) ++ rest.map (·.1) ++ post.map (·.1)) := by
        simp only [List.mem_append, not_or]
        exact ⟨⟨hexp_pre, hexp_rest⟩, hexp_post⟩
      have hnd2 : ((pre ++ rest ++ (post ++ [(curieExp c k, v)])).map (·.1)).Nodup := by
        have heq : (pre ++ rest ++ (post ++ [(curieExp c k, v)])).map (·.1)
            = (pre.map (·.1) ++ rest.map (·.1) ++ post.map (·.1))
              ++ [curieExp c k] := by simp
        rw [heq]
        exact (List.perm_append_singleton _ _).nodup_iff.mpr
          (List.nodup_cons.mpr ⟨hexp_base, hbase⟩)
      have hfresh2 : ∀ q ∈ rest, pyStartsWith q.1 (c.name ++ ":") = true →
          curieExp c q.1 ∉ (pre ++ rest ++ (post ++ [(curieExp c k, v)])).map (·.1) := by
        intro q hq hqpref
        have h0 := hfresh q (List.mem_cons_of_mem _ hq) hqpref
        simp only [List.map_append, List.map_cons, List.mem_append,
          List.mem_cons, not_or] at h0
        obtain ⟨⟨hq_pre, hq_k, hq_rest⟩, hq_post⟩ := h0
        have hqk : q.1 ≠ k := by
          intro he
          exact hk_rest (he ▸ List.mem_map.mpr ⟨q, hq, rfl⟩)
        have hqexp : curieExp c q.1 ≠ curieExp c k := by
          intro he
          exact hqk (hinj q (List.mem_cons_of_mem _ hq) (k, v)
            (List.mem_cons_self _ _) hqpref hpref he)
        simp only [List.map_append, List.map_cons, List.map_nil,
          List.mem_append, List.mem_cons, List.not_mem_nil, not_or]
        exact ⟨⟨hq_pre, hq_rest⟩, hq_post, hqexp, not_false⟩
      have hinj2 : ∀ p ∈ rest, ∀ q ∈ rest, pyStartsWith p.1 (c.name ++ ":") = true →
          pyStartsWith q.1 (c.name ++ ":") = true →
          curieExp c p.1 = curieExp c q.1 → p.1 = q.1 := by
        intro p hp q hq
        exact hinj p (List.mem_cons_of_mem _ hp) q (List.mem_cons_of_mem _ hq)
      have hihres := ih pre (post ++ [(curieExp c k, v)]) hnd2 hfresh2 hinj2
      calc ((⟨k, v⟩ :: rest : Links).map (·.1)).foldl (applyCurieStep c)
            (pre ++ (k, v) :: rest ++ post)
          = (rest.map (·.1)).foldl (applyCurieStep c)
            (applyCurieStep c (pre ++ (k, v) :: rest ++ post) k) := by
            rw [List.map_cons, List.foldl_cons]
        _ = (rest.map (·.1)).foldl (applyCurieStep c)
            (pre ++ rest ++ (post ++ [(curieExp c k, v)])) := by rw [hstep]
        _ = pre ++ rest.filter (fun p => !(pyStartsWith p.1 (c.name ++ ":")))
              ++ (post ++ [(curieExp c k, v)])
              ++ (rest.filter (fun p => pyStartsWith p.1 (c.name ++ ":"))).map
                  (fun p => (curieExp c p.1, p.2)) := hihres
        _ = pre ++ ((⟨k, v⟩ :: rest : Links).filter
                (fun p => !(pyStartsWith p.1 (c.name ++ ":")))) ++ post
              ++ ((⟨k, v⟩ :: rest : Links).filter
                (fun p => pyStartsWith p.1 (c.name ++ ":"))).map
                  (fun p => (curieExp c p.1, p.2)) := by
            simp [List.filter_cons, hpref]
    · have hstep : applyCurieStep c (pre ++ (k, v) :: rest ++ post) k
          = pre ++ (k, v) :: rest ++ post := by
        unfold applyCurieStep
        rw [if_neg hpref]
      have heq : pre ++ (k, v) :: rest ++ post
          = (pre ++ [(k, v)]) ++ rest ++ post := by simp
      have hnd2 : (((pre ++ [(k, v)]) ++ rest ++ post).map (·.1)).Nodup := by
        rw [← heq]; exact hnd
      have hfresh2 : ∀ q ∈ rest, pyStartsWith q.1 (c.name ++ ":") = true →
          curieExp c q.1 ∉ ((pre ++ [(k, v)]) ++ rest ++ post).map (·.1) := by
        rw [← heq]
        intro q hq hqpref
        exact hfresh q (List.mem_cons_of_mem _ hq) hqpref
      have hinj2 : ∀ p ∈ rest, ∀ q ∈ rest, pyStartsWith p.1 (c.name ++ ":") = true →
          pyStartsWith q.1 (c.name ++ ":") = true →
          curieExp c p.1 = curieExp c q.1 → p.1 = q.1 := by
        intro p hp q hq
        exact hinj p (List.mem_cons_of_mem _ hp) q (List.mem_cons_of_mem _ hq)
      have hihres := ih (pre ++ [(k, v)]) post hnd2 hfresh2 hinj2
      calc ((⟨k, v⟩ :: rest : Links).map (·.1)).foldl (applyCurieStep c)
            (pre ++ (k, v) :: rest ++ post)
          = (rest.map (·.1)).foldl (applyCurieStep c)
            (pre ++ (k, v) :: rest ++ post) := by
            rw [List.map_cons, List.foldl_cons, hstep]
        _ = (rest.map (·.1)).foldl (applyCurieStep c)
            ((pre ++ [(k, v)]) ++ rest ++ post) := by rw [heq]
        _ = (pre ++ [(k, v)]) ++ rest.filter
                (fun p => !(pyStartsWith p.1 (c.name ++ ":"))) ++ post
              ++ (rest.filter (fun p => pyStartsWith p.1 (c.name ++ ":"))).map
                  (fun p => (curieExp c p.1, p.2)) := hihres
        _ = pre ++ ((⟨k, v⟩ :: rest : Links).filter
                (fun p => !(pyStartsWith p.1 (c.name ++ ":")))) ++ post
              ++ ((⟨k, v⟩ :: rest : Links).filter
                (fun p => pyStartsWith p.1 (c.name ++ ":"))).map
                  (fun p => (curieExp c p.1, p.2)) := by
            simp [List.filter_cons, hpref]


theorem applyOneCurie_characterization (c : Curie) (ls : Links)
    (hnd : (ls.map (·.1)).Nodup)
    (hfresh : ∀ p ∈ ls, pyStartsWith p.1 (c.name ++ ":") = true →
      curieExp c p.1 ∉ ls.map (·.1))
    (hinj : ∀ p ∈ ls, ∀ q ∈ ls, pyStartsWith p.1 (c.name ++ ":") = true →
      pyStartsWith q.1 (c.name ++ ":") = true →
      curieExp c p.1 = curieExp c q.1 → p.1 = q.1) :
    applyOneCurie c ls
      = ls.filter (fun p => !(pyStartsWith p.1 (c.name ++ ":")))
        ++ (ls.filter (fun p => pyStartsWith p.1 (c.name ++ ":"))).map
            (fun p => (curieExp c p.1, p.2)) := by
  have hgo := applyOneCurie_go c ls [] [] (by simpa using hnd)
    (by simpa using hfresh) hinj
  simpa [applyOneCurie] using hgo

theorem lookupKey_mapped_expansions (c : Curie) (k0 : String) (v0 : LinkVal) :
    ∀ (ms : Links), (k0, v0) ∈ ms → (ms.map (·.1)).Nodup →
      (∀ q ∈ ms, curieExp c q.1 = curieExp c k0 → q.1 = k0) →
      lookupKey (ms.map (fun p => (curieExp c p.1, p.2))) (curieExp c k0)
        = some v0 := by
  intro ms
  induction ms with
  | nil => intro hmem; cases hmem
  | cons a as ih =>
    intro hmem hnd hinj
    rcases List.mem_cons.mp hmem with he | hm
    · cases he
      rw [List.map_cons]
      exact lookupKey_cons_self _ _ _
    · have hk0as : k0 ∈ as.map (·.1) := List.mem_map.mpr ⟨(k0, v0), hm, rfl⟩
      have hnd2 : (a.1 :: as.map (·.1)).Nodup := by
        rw [List.map_cons] at hnd
        exact hnd
      have ha_ne : a.1 ≠ k0 := by
        intro he
        exact (List.nodup_cons.mp hnd2).1 (he ▸ hk0as)
      have hexp_ne : curieExp c a.1 ≠ curieExp c k0 := by
        intro he
        exact ha_ne (hinj a (List.mem_cons_self _ _) he)
      rw [List.map_cons]
      unfold lookupKey
      rw [List.find?_cons_of_neg _ (by simp [beq_eq_false_iff_ne.mpr hexp_ne])]
      exact ih hm (List.nodup_cons.mp hnd2).2
        (fun q hq => hinj q (List.mem_cons_of_mem _ hq))


theorem lookupKey_append_some (xs ys : Links) (k : String) (v : LinkVal)
    (h : lookupKey xs k = some v) : lookupKey (xs ++ ys) k = some v := by
  induction xs with
  | nil => cases h
  | cons a as ih =>
    by_cases hb : (a.1 == k) = true
    · unfold lookupKey at h ⊢
      rw [@List.find?_cons_of_pos _ (fun q => q.1 == k) a as hb] at h
      rw [List.cons_append,
        @List.find?_cons_of_pos _ (fun q => q.1 == k) a (as ++ ys) hb]
      exact h
    · unfold lookupKey at h ⊢
      rw [@List.find?_cons_of_neg _ (fun q => q.1 == k) a as hb] at h
      rw [List.cons_append,
        @List.find?_cons_of_neg _ (fun q => q.1 == k) a (as ++ ys) hb]
      exact ih h

theorem not_mem_of_lookupKey_eq_none (ls : Links) (k : String)
    (h : lookupKey ls k = none) : k ∉ ls.map (·.1) := by
  intro hm
  obtain ⟨p, hp, he⟩ := List.mem_map.mp hm
  induction ls with
  | nil => cases hp
  | cons a as ih =>
    by_cases hb : (a.1 == k) = true
    · unfold lookupKey at h
      rw [@List.find?_cons_of_pos _ (fun q => q.1 == k) a as hb] at h
      cases h
    · unfold lookupKey at h
      rw [@List.find?_cons_of_neg _ (fun q => q.1 == k) a as hb] at h
      rcases List.mem_cons.mp hp with ha | ha
      · exact hb (by rw [← ha]; simpa using he)
      · exact ih h (List.mem_map.mpr ⟨p, ha, he⟩) ha

theorem lookupKey_filter_key_sat (p : String × LinkVal → Bool) (ls : Links)
    (k : String) (h : ∀ q ∈ ls, q.1 = k → p q = true) :
    lookupKey (ls.filter p) k = lookupKey ls k := by
  induction ls with
  | nil => rfl
  | cons a as ih =>
    have ih' := ih (fun q hq => h q (List.mem_cons_of_mem _ hq))
    by_cases hak : a.1 = k
    · have hbk : (a.1 == k) = true := by simpa using hak
      rw [List.filter_cons_of_pos (h a (List.mem_cons_self _ _) hak)]
      unfold lookupKey
      rw [@List.find?_cons_of_pos _ (fun q => q.1 == k) a (as.filter p) hbk,
        @List.find?_cons_of_pos _ (fun q => q.1 == k) a as hbk]
    · have hb : ¬((a.1 == k) = true) := by
        simp [beq_eq_false_iff_ne.mpr hak]
      cases hpa : p a
      · rw [List.filter_cons_of_neg (by simp [hpa])]
        rw [ih']
        unfold lookupKey
        rw [@List.find?_cons_of_neg _ (fun q => q.1 == k) a as hb]
      · rw [List.filter_cons_of_pos hpa]
        unfold lookupKey
        rw [@List.find?_cons_of_neg _ (fun q => q.1 == k) a (as.filter p) hb,
          @List.find?_cons_of_neg _ (fun q => q.1 == k) a as hb]
        exact ih'

theorem mem_filter_append_exps (c₁ : Curie) (ls : Links) (x : String × LinkVal)
    (hx : x ∈ ls.filter (fun p => !(pyStartsWith p.1 (c₁.name ++ ":")))
        ++ (ls.filter (fun p => pyStartsWith p.1 (c₁.name ++ ":"))).map
            (fun p => (curieExp c₁ p.1, p.2))) :
    (x ∈ ls ∧ pyStartsWith x.1 (c₁.name ++ ":") = false)
    ∨ ∃ q, q ∈ ls ∧ pyStartsWith q.1 (c₁.name ++ ":") = true
        ∧ x = (curieExp c₁ q.1, q.2) := by
  rcases List.mem_append.mp hx with h | h
  · have hf := List.mem_filter.mp h
    exact Or.inl ⟨hf.1, by simpa using hf.2⟩
  · obtain ⟨q, hq, he⟩ := List.mem_map.mp h
    have hf := List.mem_filter.mp hq
    exact Or.inr ⟨q, hf.1, hf.2, he.symm⟩


theorem wellFormed_transfer (c₁ : Curie) (cs : List Curie) (ls : Links)
    (h : WellFormedCuries (c₁ :: cs) ls) :
    WellFormedCuries cs (applyOneCurie c₁ ls) := by
  obtain ⟨h1, h2, h3, h4, h5⟩ := h
  have hchar := applyOneCurie_characterization c₁ ls h1
    (h2 c₁ (List.mem_cons_self _ _))
    (fun p hp q hq hpp hqq he =>
      (h3 c₁ (List.mem_cons_self _ _) c₁ (List.mem_cons_self _ _) p hp q hq
        hpp hqq he).2)
  rw [hchar]
  refine ⟨?_, ?_, ?_, ?_, ?_⟩
  · -- keys of the new section are still unique
    rw [List.map_append, List.nodup_append]
    refine ⟨h1.sublist (List.Sublist.map _ (List.filter_sublist _)), ?_, ?_⟩
    · have hEkeys : (((ls.filter (fun p => pyStartsWith p.1 (c₁.name ++ ":"))).map
          (fun p => (curieExp c₁ p.1, p.2))).map (·.1))
          = ((ls.filter (fun p => pyStartsWith p.1 (c₁.name ++ ":"))).map
              (·.1)).map (curieExp c₁) := by
        simp [List.map_map, Function.comp]
      rw [hEkeys]
      apply List.Nodup.map_on
      · intro k1 hk1 k2 hk2 he
        obtain ⟨p, hp, hpe⟩ := List.mem_map.mp hk1
        obtain ⟨q, hq, hqe⟩ := List.mem_map.mp hk2
        have hpf := List.mem_filter.mp hp
        have hqf := List.mem_filter.mp hq
        rw [← hpe, ← hqe] at he ⊢
        exact (h3 c₁ (List.mem_cons_self _ _) c₁ (List.mem_cons_self _ _)
          p hpf.1 q hqf.1 hpf.2 hqf.2 he).2
      · exact h1.sublist (List.Sublist.map _ (List.filter_sublist _))
    · intro a ha hb
      obtain ⟨p, hp, hpe⟩ := List.mem_map.mp ha
      obtain ⟨x, hx, hxe⟩ := List.mem_map.mp hb
      obtain ⟨q, hq, hqe⟩ := List.mem_map.mp hx
      have hpf := List.mem_filter.mp hp
      have hqf := List.mem_filter.mp hq
      apply h2 c₁ (List.mem_cons_self _ _) q hqf.1 hqf.2
      have hqa : curieExp c₁ q.1 = a := by
        rw [← hqe] at hxe
        simpa using hxe
      rw [hqa]
      exact List.mem_map.mpr ⟨p, hpf.1, hpe⟩
  · -- freshness of the remaining curies' expansions
    intro c hc p hpmem hpref hmem
    rcases mem_filter_append_exps c₁ ls p hpmem with ⟨hpls, hpnp⟩ | ⟨q, hq, hqpref, hpe⟩
    · rw [List.map_append] at hmem
      rcases List.mem_append.mp hmem with hmm | hmm
      · obtain ⟨y, hy, hye⟩ := List.mem_map.mp hmm
        have hyf := List.mem_filter.mp hy
        exact h2 c (List.mem_cons_of_mem _ hc) p hpls hpref
          (hye ▸ List.mem_map.mpr ⟨y, hyf.1, rfl⟩)
      · obtain ⟨x, hx, hxe⟩ := List.mem_map.mp hmm
        obtain ⟨q', hq', hq'e⟩ := List.mem_map.mp hx
        have hq'f := List.mem_filter.mp hq'
        have hxeq : curieExp c₁ q'.1 = curieExp c p.1 := by
          rw [← hq'e] at hxe
          simpa using hxe
        have h33 := h3 c₁ (List.mem_cons_self _ _) c (List.mem_cons_of_mem _ hc)
          q' hq'f.1 p hpls hq'f.2 hpref hxeq
        have hp1 : pyStartsWith p.1 (c₁.name ++ ":") = true := by
          rw [h33.1]
          exact hpref
        rw [hpnp] at hp1
        cases hp1
    · have hno := h4 c₁ (List.mem_cons_self _ _) c (List.mem_cons_of_mem _ hc)
        q hq hqpref
      subst hpe
      exact absurd hpref (by simp [hno])
  · -- injectivity of the remaining curies' expansions
    intro c hc c' hc' p hpmem q hqmem hpp hqq he
    rcases mem_filter_append_exps c₁ ls p hpmem with ⟨hpls, _⟩ | ⟨r', hr', hr'pref, hpe⟩
    · rcases mem_filter_append_exps c₁ ls q hqmem with ⟨hqls, _⟩ | ⟨r', hr', hr'pref, hqe⟩
      · have h33 := h3 c (List.mem_cons_of_mem _ hc) c' (List.mem_cons_of_mem _ hc')
          p hpls q hqls hpp hqq he
        exact h33
      · have hno := h4 c₁ (List.mem_cons_self _ _) c' (List.mem_cons_of_mem _ hc')
          r' hr' hr'pref
        subst hqe
        exact absurd hqq (by simp [hno])
    · have hno := h4 c₁ (List.mem_cons_self _ _) c (List.mem_cons_of_mem _ hc)
        r' hr' hr'pref
      subst hpe
      exact absurd hpp (by simp [hno])
  · -- expansions are still not shorthand
    intro c hc c' hc' p hpmem hpp
    rcases mem_filter_append_exps c₁ ls p hpmem with ⟨hpls, _⟩ | ⟨r', hr', hr'pref, hpe⟩
    · exact h4 c (List.mem_cons_of_mem _ hc) c' (List.mem_cons_of_mem _ hc')
        p hpls hpp
    · have hno := h4 c₁ (List.mem_cons_self _ _) c (List.mem_cons_of_mem _ hc)
        r' hr' hr'pref
      subst hpe
      exact absurd hpp (by simp [hno])
  · -- still at most one curie per relation name
    intro c hc c' hc' p hpmem hpp hpp'
    rcases mem_filter_append_exps c₁ ls p hpmem with ⟨hpls, _⟩ | ⟨r', hr', hr'pref, hpe⟩
    · exact h5 c (List.mem_cons_of_mem _ hc) c' (List.mem_cons_of_mem _ hc')
        p hpls hpp hpp'
    · have hno := h4 c₁ (List.mem_cons_self _ _) c (List.mem_cons_of_mem _ hc)
        r' hr' hr'pref
      subst hpe
      exact absurd hpp (by simp [hno])


theorem applyCuriesList_lookup_preserved :
    ∀ (cs : List Curie) (ls : Links) (k₀ : String),
      WellFormedCuries cs ls →
      (∀ c ∈ cs, ∀ p ∈ ls, pyStartsWith p.1 (c.name ++ ":") = true → p.1 ≠ k₀) →
      (∀ c ∈ cs, ∀ p ∈ ls, pyStartsWith p.1 (c.name ++ ":") = true →
        curieExp c p.1 ≠ k₀) →
      lookupKey (applyCuriesList cs ls) k₀ = lookupKey ls k₀ := by
  intro cs
  induction cs with
  | nil => intro ls k₀ _ _ _; rfl
  | cons c₁ rest ih =>
    intro ls k₀ hwf hkey hexp
    have hwf' := hwf
    obtain ⟨h1, h2, h3, h4, h5⟩ := hwf'
    have hchar := applyOneCurie_characterization c₁ ls h1
      (h2 c₁ (List.mem_cons_self _ _))
      (fun p hp q hq hpp hqq he =>
        (h3 c₁ (List.mem_cons_self _ _) c₁ (List.mem_cons_self _ _) p hp q hq
          hpp hqq he).2)
    have hstep : applyCuriesList (c₁ :: rest) ls
        = applyCuriesList rest (applyOneCurie c₁ ls) := rfl
    rw [hstep]
    have hkey' : ∀ c ∈ rest, ∀ p ∈ applyOneCurie c₁ ls,
        pyStartsWith p.1 (c.name ++ ":") = true → p.1 ≠ k₀ := by
      intro c hc p hpmem hpref
      rw [hchar] at hpmem
      rcases mem_filter_append_exps c₁ ls p hpmem with ⟨hpls, _⟩ | ⟨q, hq, hqpref, hpe⟩
      · exact hkey c (List.mem_cons_of_mem _ hc) p hpls hpref
      · have hno := h4 c₁ (List.mem_cons_self _ _) c (List.mem_cons_of_mem _ hc)
          q hq hqpref
        subst hpe
        exact absurd hpref (by simp [hno])
    have hexp' : ∀ c ∈ rest, ∀ p ∈ applyOneCurie c₁ ls,
        pyStartsWith p.1 (c.name ++ ":") = true → curieExp c p.1 ≠ k₀ := by
      intro c hc p hpmem hpref
      rw [hchar] at hpmem
      rcases mem_filter_append_exps c₁ ls p hpmem with ⟨hpls, _⟩ | ⟨q, hq, hqpref, hpe⟩
      · exact hexp c (List.mem_cons_of_mem _ hc) p hpls hpref
      · have hno := h4 c₁ (List.mem_cons_self _ _) c (List.mem_cons_of_mem _ hc)
          q hq hqpref
        subst hpe
        exact absurd hpref (by simp [hno])
    rw [ih (applyOneCurie c₁ ls) k₀ (wellFormed_transfer c₁ rest ls hwf)
      hkey' hexp']
    rw [hchar]
    have hE : k₀ ∉ ((ls.filter (fun p => pyStartsWith p.1 (c₁.name ++ ":"))).map
        (fun p => (curieExp c₁ p.1, p.2))).map (·.1) := by
      intro hm
      obtain ⟨x, hx, hxe⟩ := List.mem_map.mp hm
      obtain ⟨q, hq, hqe⟩ := List.mem_map.mp hx
      have hqf := List.mem_filter.mp hq
      apply hexp c₁ (List.mem_cons_self _ _) q hqf.1 hqf.2
      rw [← hqe] at hxe
      simpa using hxe
    have hNP : lookupKey (ls.filter
        (fun p => !(pyStartsWith p.1 (c₁.name ++ ":")))) k₀ = lookupKey ls k₀ := by
      apply lookupKey_filter_key_sat
      intro q hq hqk
      cases hqp : pyStartsWith q.1 (c₁.name ++ ":")
      · simp [hqp]
      · exact absurd hqk (hkey c₁ (List.mem_cons_self _ _) q hq hqp)
    cases hls : lookupKey ls k₀ with
    | some v =>
      rw [hls] at hNP
      exact lookupKey_append_some _ _ _ _ hNP
    | none =>
      rw [hls] at hNP
      rw [lookupKey_append_right_of_not_mem _ _ _
        (not_mem_of_lookupKey_eq_none _ _ hNP)]
      exact lookupKey_eq_none_of_not_mem _ _ hE

theorem applyCuriesList_moves :
    ∀ (cs : List Curie) (ls : Links) (c : Curie) (k : String) (v : LinkVal),
      WellFormedCuries cs ls → c ∈ cs → (k, v) ∈ ls →
      pyStartsWith k (c.name ++ ":") = true →
      lookupKey (applyCuriesList cs ls) k = none
      ∧ lookupKey (applyCuriesList cs ls) (curieExp c k) = some v := by
  intro cs
  induction cs with
  | nil => intro ls c k v _ hc; cases hc
  | cons c₁ rest ih =>
    intro ls c k v hwf hc hkv hkpref
    have hwf' := hwf
    obtain ⟨h1, h2, h3, h4, h5⟩ := hwf'
    have hchar := applyOneCurie_characterization c₁ ls h1
      (h2 c₁ (List.mem_cons_self _ _))
      (fun p hp q hq hpp hqq he =>
        (h3 c₁ (List.mem_cons_self _ _) c₁ (List.mem_cons_self _ _) p hp q hq
          hpp hqq he).2)
    have hstep : applyCuriesList (c₁ :: rest) ls
        = applyCuriesList rest (applyOneCurie c₁ ls) := rfl
    by_cases hp1 : pyStartsWith k (c₁.name ++ ":") = true
    · -- the head curie moves this shorthand; later curies leave it alone
      have hcc : c = c₁ := h5 c hc c₁ (List.mem_cons_self _ _) (k, v) hkv
        hkpref hp1
      subst hcc
      have hkls : k ∈ ls.map (·.1) := List.mem_map.mpr ⟨(k, v), hkv, rfl⟩
      have hexpfresh := h2 c (List.mem_cons_self _ _) (k, v) hkv hkpref
      have hka : lookupKey (applyOneCurie c ls) k = none := by
        rw [hchar]
        apply lookupKey_eq_none_of_not_mem
        intro hm
        rw [List.map_append] at hm
        rcases List.mem_append.mp hm with hmm | hmm
        · obtain ⟨y, hy, hye⟩ := List.mem_map.mp hmm
          have hyf := List.mem_filter.mp hy
          have : pyStartsWith y.1 (c.name ++ ":") = false := by simpa using hyf.2
          rw [hye, hkpref] at this
          cases this
        · obtain ⟨x, hx, hxe⟩ := List.mem_map.mp hmm
          obtain ⟨q, hq, hqe⟩ := List.mem_map.mp hx
          have hqf := List.mem_filter.mp hq
          apply h2 c (List.mem_cons_self _ _) q hqf.1 hqf.2
          rw [← hqe] at hxe
          have : curieExp c q.1 = k := by simpa using hxe
          rw [this]
          exact hkls
      have hkb : lookupKey (applyOneCurie c ls) (curieExp c k) = some v := by
        rw [hchar]
        rw [lookupKey_append_right_of_not_mem]
        · apply lookupKey_mapped_expansions c k v
          · exact List.mem_filter.mpr ⟨hkv, hkpref⟩
          · exact h1.sublist (List.Sublist.map _ (List.filter_sublist _))
          · intro q hq he
            have hqf := List.mem_filter.mp hq
            exact (h3 c (List.mem_cons_self _ _) c (List.mem_cons_self _ _)
              q hqf.1 (k, v) hkv hqf.2 hkpref he).2
        · intro hm
          obtain ⟨y, hy, hye⟩ := List.mem_map.mp hm
          have hyf := List.mem_filter.mp hy
          exact hexpfresh (hye ▸ List.mem_map.mpr ⟨y, hyf.1, rfl⟩)
      have hpres : ∀ k₀, (∀ c' ∈ rest, ∀ p ∈ applyOneCurie c ls,
            pyStartsWith p.1 (c'.name ++ ":") = true → p.1 ≠ k₀) →
          (∀ c' ∈ rest, ∀ p ∈ applyOneCurie c ls,
            pyStartsWith p.1 (c'.name ++ ":") = true → curieExp c' p.1 ≠ k₀) →
          lookupKey (applyCuriesList rest (applyOneCurie c ls)) k₀
            = lookupKey (applyOneCurie c ls) k₀ :=
        fun k₀ hkey hexp => applyCuriesList_lookup_preserved rest
          (applyOneCurie c ls) k₀ (wellFormed_transfer c rest ls hwf) hkey hexp
      constructor
      · rw [hstep, hpres k ?hkeyk ?hexpk]
        · exact hka
        case hkeyk =>
          intro c' hc' p hpmem hpref
          rw [hchar] at hpmem
          rcases mem_filter_append_exps c ls p hpmem with ⟨hpls, hpnp⟩ | ⟨q, hq, hqpref, hpe⟩
          · intro hpk
            rw [hpk, hkpref] at hpnp
            cases hpnp
          · have hno := h4 c (List.mem_cons_self _ _) c' (List.mem_cons_of_mem _ hc')
              q hq hqpref
            subst hpe
            exact absurd hpref (by simp [hno])
        case hexpk =>
          intro c' hc' p hpmem hpref
          rw [hchar] at hpmem
          rcases mem_filter_append_exps c ls p hpmem with ⟨hpls, _⟩ | ⟨q, hq, hqpref, hpe⟩
          · intro he
            exact h2 c' (List.mem_cons_of_mem _ hc') p hpls hpref (he ▸ hkls)
          · have hno := h4 c (List.mem_cons_self _ _) c' (List.mem_cons_of_mem _ hc')
              q hq hqpref
            subst hpe
            exact absurd hpref (by simp [hno])
      · rw [hstep, hpres (curieExp c k) ?hkeye ?hexpe]
        · exact hkb
        case hkeye =>
          intro c' hc' p hpmem hpref
          rw [hchar] at hpmem
          rcases mem_filter_append_exps c ls p hpmem with ⟨hpls, _⟩ | ⟨q, hq, hqpref, hpe⟩
          · intro he
            exact hexpfresh (he ▸ List.mem_map.mpr ⟨p, hpls, rfl⟩)
          · have hno := h4 c (List.mem_cons_self _ _) c' (List.mem_cons_of_mem _ hc')
              q hq hqpref
            subst hpe
            exact absurd hpref (by simp [hno])
        case hexpe =>
          intro c' hc' p hpmem hpref
          rw [hchar] at hpmem
          rcases mem_filter_append_exps c ls p hpmem with ⟨hpls, hpnp⟩ | ⟨q, hq, hqpref, hpe⟩
          · intro he
            have h33 := h3 c' (List.mem_cons_of_mem _ hc') c (List.mem_cons_self _ _)
              p hpls (k, v) hkv hpref hkpref he
            have : pyStartsWith p.1 (c.name ++ ":") = true := by
              rw [← h33.1]
              exact hpref
            rw [hpnp] at this
            cases this
          · have hno := h4 c (List.mem_cons_self _ _) c' (List.mem_cons_of_mem _ hc')
              q hq hqpref
            subst hpe
            exact absurd hpref (by simp [hno])
    · -- the head curie does not touch this shorthand; recurse
      have hc' : c ∈ rest := by
        rcases List.mem_cons.mp hc with he | hm
        · rw [he] at hkpref
          exact absurd hkpref hp1
        · exact hm
      have hkvL : (k, v) ∈ applyOneCurie c₁ ls := by
        rw [hchar]
        apply List.mem_append_left
        apply List.mem_filter.mpr
        refine ⟨hkv, ?_⟩
        simp only [Bool.not_eq_true'] at hp1 ⊢
        simpa using hp1
      rw [hstep]
      exact ih (applyOneCurie c₁ ls) c k v (wellFormed_transfer c₁ rest ls hwf)
        hc' hkvL hkpref


/-- C7: `apply_hal_curies` — a resource with no `curies` entry in its link
section is returned unchanged (the structural-failure path never escapes to
the caller); with a `curies` entry present and deletion enabled the consumed
`curies` entry is removed; and for any curie `c` declared among the possibly
several entries of the `curies` list (on a well-formed section,
`WellFormedCuries`: unique relation names with fresh, pairwise-distinct
expansions that are not themselves shorthand — CPython's
dict-iteration-under-mutation makes the capture case unspecified), every link
relation keyed with the shorthand prefix `c.name ++ ":"` is gone from the
output, and the key obtained by substituting the shorthand remainder into the
placeholder of `c`'s template holds exactly that relation's value. -/
theorem c7_apply_hal_curies_behaviour :
    (∀ (r : Resource) (d : Bool), lookupKey r.links "curies" = none →
      apply_hal_curies d r = r)
    ∧ (∀ (r : Resource) (cs : List Curie),
        lookupKey r.links "curies" = some (LinkVal.curies cs) →
        lookupKey (apply_hal_curies true r).links "curies" = none)
    ∧ (∀ (r : Resource) (cs : List Curie) (c : Curie),
        lookupKey r.links "curies" = some (LinkVal.curies cs) →
        c ∈ cs → WellFormedCuries cs r.links →
        ∀ (k : String) (v : LinkVal), (k, v) ∈ r.links →
          pyStartsWith k (c.name ++ ":") = true →
          lookupKey (apply_hal_curies true r).links k = none
          ∧ lookupKey (apply_hal_curies true r).links (curieExp c k)
            = some v) := by
  refine ⟨?_, ?_, ?_⟩
  · intro r d h
    unfold apply_hal_curies
    rw [h]
  · intro r cs h
    unfold apply_hal_curies
    rw [h]
    exact lookupKey_delKey_self _ _
  · intro r cs c hcs hmem hwf k v hkv hkpref
    have happ : (apply_hal_curies true r).links
        = delKey (applyCuriesList cs r.links) "curies" := by
      unfold apply_hal_curies
      rw [hcs]
      rfl
    have hmoves := applyCuriesList_moves cs r.links c k v hwf hmem hkv hkpref
    have hcuries_mem : "curies" ∈ r.links.map (·.1) := by
      unfold lookupKey at hcs
      cases hfind : List.find? (fun p => p.1 == "curies") r.links with
      | none => rw [hfind] at hcs; cases hcs
      | some pair =>
        have hp := List.mem_of_find?_eq_some hfind
        have hpred := List.find?_some hfind
        exact List.mem_map.mpr ⟨pair, hp, eq_of_beq hpred⟩
    have hexpfresh := hwf.2.1 c hmem (k, v) hkv hkpref
    constructor
    · rcases eq_or_ne k "curies" with hck | hck
      · rw [happ, hck]
        exact lookupKey_delKey_self _ _
      · rw [happ, lookupKey_delKey_ne _ _ _ hck]
        exact hmoves.1
    · have hexp_ne : curieExp c k ≠ "curies" :=
        fun he => hexpfresh (he ▸ hcuries_mem)
      rw [happ, lookupKey_delKey_ne _ _ _ hexp_ne]
      exact hmoves.2

/-- C7 witness: the behaviour theorem applied to a resource without curies and
to the two-curie `curiesResource`, whose shorthands `ch:sites` and `aq:dev`
are moved to `http://x/rels/sites` and `http://y/dev/doc`. -/
theorem c7_apply_hal_curies_behaviour_witness :
    apply_hal_curies true
        { links := [("foo", LinkVal.single ⟨"h", "t"⟩)], attrs := [] }
      = { links := [("foo", LinkVal.single ⟨"h", "t"⟩)], attrs := [] }
    ∧ lookupKey (apply_hal_curies true curiesResource).links "curies" = none
    ∧ lookupKey (apply_hal_curies true curiesResource).links "ch:sites" = none
    ∧ lookupKey (apply_hal_curies true curiesResource).links
        "http://x/rels/sites"
      = some (LinkVal.single ⟨"http://x/sites", "sites"⟩)
    ∧ lookupKey (apply_hal_curies true curiesResource).links "aq:dev" = none
    ∧ lookupKey (apply_hal_curies true curiesResource).links "http://y/dev/doc"
      = some (LinkVal.single ⟨"http://y/dev", "dev"⟩) :=
  ⟨c7_apply_hal_curies_behaviour.1 _ true rfl,
   c7_apply_hal_curies_behaviour.2.1 curiesResource _ rfl,
   (c7_apply_hal_curies_behaviour.2.2 curiesResource _
      ⟨"ch", "http://x/rels/\x7brel\x7d"⟩ rfl (by decide) (by decide)
      "ch:sites" (LinkVal.single ⟨"http://x/sites", "sites"⟩)
      (by decide) rfl).1,
   (c7_apply_hal_curies_behaviour.2.2 curiesResource _
      ⟨"ch", "http://x/rels/\x7brel\x7d"⟩ rfl (by decide) (by decide)
      "ch:sites" (LinkVal.single ⟨"http://x/sites", "sites"⟩)
      (by decide) rfl).2,
   (c7_apply_hal_curies_behaviour.2.2 curiesResource _
      ⟨"aq", "http://y/\x7bz\x7d/doc"⟩ rfl (by decide) (by decide)
      "aq:dev" (LinkVal.single ⟨"http://y/dev", "dev"⟩)
      (by decide) rfl).1,
   (c7_apply_hal_curies_behaviour.2.2 curiesResource _
      ⟨"aq", "http://y/\x7bz\x7d/doc"⟩ rfl (by decide) (by decide)
      "aq:dev" (LinkVal.single ⟨"http://y/dev", "dev"⟩)
      (by decide) rfl).2⟩

end ChainCrawler
